import Mathlib

/-!
# Verification of the s-expression-like tokenizer and parser (src/src/syntax.js)

This file is a shallow embedding of the tokenizer (`tokenize`, syntax.js lines
399-791) and the parser (`parse`, lines 806-1005) of the repository, together
with proofs about the claims of the specification.

Modelling conventions:

* Text is a `List Char` (the JS code walks the string one position at a time
  with one-character lookahead `text[i+1]` and look-back `text[i-1]`).
* A thrown JS exception (a failed `assert`, `error_unexpected` or
  `error_unexpected_unimplemented`) is modelled by the `exn` constructor of the
  result types, carrying the exception message.
* Error results carry the stable `error_code`.  The rendered `error_message`
  strings are abstracted to the data interpolated into them that the claims
  talk about: for `UnterminatedMultiLineComment` the tokenizer result carries
  the `multi_line_comment_nesting_level` that line 738 of syntax.js renders as
  "missing N closing delimiter(s)"; parser errors built with
  `create_error_message` carry the (index, line, column) position passed to
  that renderer.  All other parts of the message strings are fixed text or
  derivable from the original text plus those positions.
* `Token.value` (a cached copy of the lexeme) is not modelled: per the data
  model it is derived, always `text[index, index+length)` (`lexeme` below).
-/

namespace SExprLike

/-! ## Token types (syntax.js lines 153-168) -/

def TOKEN_TYPE_WHITESPACE : Nat := 100
def TOKEN_TYPE_WORD : Nat := 101
def TOKEN_TYPE_DOUBLE_QUOTE_STRING : Nat := 102
def TOKEN_TYPE_SINGLE_QUOTE_STRING : Nat := 103
def TOKEN_TYPE_LIST_DELIMITER_OPEN : Nat := 104
def TOKEN_TYPE_LIST_DELIMITER_CLOSE : Nat := 105
def TOKEN_TYPE_SINGLE_LINE_COMMENT : Nat := 106
def TOKEN_TYPE_MULTI_LINE_COMMENT : Nat := 107

/-! ## Error codes (syntax.js lines 191-195) -/

def ERROR_CODE_UNEXPECTED_CLOSING_DELIMITER : Nat := 1
def ERROR_CODE_UNCLOSED_DELIMITER : Nat := 2
def ERROR_CODE_DELIM_MISMATCH : Nat := 4
def ERROR_CODE_UNTERMINATED_STRING : Nat := 8
def ERROR_CODE_UNTERMINATED_MULTI_LINE_COMMENT : Nat := 16

/-! ## Tokenization modes (syntax.js lines 173-186) -/

inductive Mode where
| undetermined
| whitespace
| word
| dqString
| sqString
| slComment
| mlComment
| mlCommentStart
| mlCommentEnd
deriving DecidableEq, Repr

/-- The numeric value of each `MODE_*` constant in syntax.js, used when a mode
is interpolated into an exception message. -/
def mode_code : Mode → Nat
| .undetermined => 1
| .whitespace => 2
| .word => 4
| .dqString => 8
| .sqString => 16
| .slComment => 32
| .mlComment => 64
| .mlCommentStart => 128
| .mlCommentEnd => 256

/-! ## Character classes -/

/-- The ECMAScript whitespace class `\s` used by `character.match(/\s/)`. -/
def is_js_whitespace (c : Char) : Bool :=
  c = ' ' || c = '\t' || c = '\n' || c = '\x0b' || c = '\x0c' || c = '\r' ||
  c = ' ' || c = Char.ofNat 0x1680 ||
  (0x2000 ≤ c.toNat && c.toNat ≤ 0x200a) ||
  c = Char.ofNat 0x2028 || c = Char.ofNat 0x2029 || c = Char.ofNat 0x202f ||
  c = Char.ofNat 0x205f || c = Char.ofNat 0x3000 || c = Char.ofNat 0xfeff

/-- `character.match(/[([{]/)` (syntax.js line 437). -/
def is_open_delim (c : Char) : Bool := c = '(' || c = '[' || c = '{'

/-- `character.match(/[)\]}]/)` (syntax.js line 445). -/
def is_close_delim (c : Char) : Bool := c = ')' || c = ']' || c = '}'

/-- `character.match(/[()[\]{}]/)` (syntax.js line 517). -/
def is_any_delim (c : Char) : Bool := is_open_delim c || is_close_delim c

/-- The single-quote character, written via its code point. -/
def single_quote_char : Char := Char.ofNat 39

/-! ## Tokens (syntax.js class `Token`, lines 215-234) -/

structure Token where
  type : Nat
  index : Nat
  length : Nat
  line : Nat
  column : Nat
deriving DecidableEq, Repr

/-- The lexeme of a token: `text.substring(token.index, token.index + token.length)`. -/
def lexeme (text : List Char) (t : Token) : List Char :=
  (text.drop t.index).take t.length

/-! ## Tokenization results

`TokenizationResult` mirrors syntax.js: `ok` with the token list, `err` with
the stable error code (plus the `multi_line_comment_nesting_level` that the
`UnterminatedMultiLineComment` message of line 738 reports as
"missing N closing delimiter(s)"; `0` for the other error kinds, whose
messages do not mention a count), and `exn` for a thrown exception. -/

inductive TokenizationResult where
| ok (tokens : List Token)
| err (error_code : Nat) (missing_delims : Nat)
| exn (message : String)
deriving DecidableEq, Repr

/-- A failure exit taken from inside the character loop (an early `return` of
an error object, or a thrown assertion). -/
inductive TokFail where
| err (error_code : Nat) (missing_delims : Nat)
| exn (message : String)
deriving DecidableEq, Repr

def TokFail.toResult : TokFail → TokenizationResult
| .err c m => .err c m
| .exn m => .exn m

/-- Result of consuming one character: either the updated machine state, or a
failure exit. -/
inductive StepRes where
| next (mode : Mode) (tok : Option Token) (nest : Nat) (acc : List Token)
| halt (f : TokFail)
deriving DecidableEq, Repr

/-- The `MODE_UNDETERMINED` branch of the character loop (syntax.js lines
433-495).  `c` is the current character, `la` is the one-character lookahead
`text[text_index + 1]`, `i`, `line`, `col` the current position, `nest` the
multi-line comment nesting level, and `acc` the tokens emitted so far.
The entry assertions of lines 434-435 are modelled by the caller (token is
`none` there by the match) and by the nesting check here. -/
def undetermined_step (c : Char) (la : Option Char) (i line col nest : Nat)
    (acc : List Token) : StepRes :=
  if nest ≠ 0 then
    .halt (.exn "Assertion failed: multi-line comment nesting expected to be 0.")
  else if is_open_delim c then
    .next .undetermined none nest (acc ++ [⟨TOKEN_TYPE_LIST_DELIMITER_OPEN, i, 1, line, col⟩])
  else if is_close_delim c then
    .next .undetermined none nest (acc ++ [⟨TOKEN_TYPE_LIST_DELIMITER_CLOSE, i, 1, line, col⟩])
  else if is_js_whitespace c then
    .next .whitespace (some ⟨TOKEN_TYPE_WHITESPACE, i, 1, line, col⟩) nest acc
  else if c = ';' then
    .next .slComment (some ⟨TOKEN_TYPE_SINGLE_LINE_COMMENT, i, 1, line, col⟩) nest acc
  else if c = '#' ∧ la = some '|' then
    .next .mlCommentStart (some ⟨TOKEN_TYPE_MULTI_LINE_COMMENT, i, 1, line, col⟩) 1 acc
  else if c = '|' ∧ la = some '#' then
    .halt (.err ERROR_CODE_UNEXPECTED_CLOSING_DELIMITER 0)
  else if c = '"' then
    .next .dqString (some ⟨TOKEN_TYPE_DOUBLE_QUOTE_STRING, i, 1, line, col⟩) nest acc
  else if c = single_quote_char then
    .next .sqString (some ⟨TOKEN_TYPE_SINGLE_QUOTE_STRING, i, 1, line, col⟩) nest acc
  else
    .next .word (some ⟨TOKEN_TYPE_WORD, i, 1, line, col⟩) nest acc

/-- The word-boundary test of `MODE_WORD` (syntax.js lines 512-519).  The
source lists the test for a following multi-line comment opener twice; the
duplicate disjunct is logically identical and written once here. -/
def is_word_boundary (c : Char) (la : Option Char) : Bool :=
  is_js_whitespace c || c = ';' ||
  (c = '#' && la = some '|') ||
  c = '"' || c = single_quote_char ||
  is_any_delim c ||
  (c = '|' && la = some '#')

/-- One iteration of the character-consumption loop (syntax.js lines 430-622).
The `MODE_WHITESPACE` and `MODE_WORD` states close their token without
consuming the character and loop back into the `MODE_UNDETERMINED` branch;
this re-dispatch is the direct call of `undetermined_step` below.  `prev` is
the look-back `text[text_index - 1]` (`none` at index 0). -/
def tokenize_step (c : Char) (la prev : Option Char) (i line col : Nat)
    (mode : Mode) (tok : Option Token) (nest : Nat) (acc : List Token) : StepRes :=
  match mode, tok with
  | .undetermined, some _ => .halt (.exn "Assertion failed: token expected to be null.")
  | .undetermined, none => undetermined_step c la i line col nest acc
  | .whitespace, none => .halt (.exn "Assertion failed: token expected not to be null.")
  | .word, none => .halt (.exn "Assertion failed: token expected not to be null.")
  | .dqString, none => .halt (.exn "Assertion failed: token expected not to be null.")
  | .sqString, none => .halt (.exn "Assertion failed: token expected not to be null.")
  | .slComment, none => .halt (.exn "Assertion failed: token expected not to be null.")
  | .mlCommentStart, none => .halt (.exn "Assertion failed: token expected not to be null.")
  | .mlComment, none => .halt (.exn "Assertion failed: token expected not to be null.")
  | .mlCommentEnd, none => .halt (.exn "Assertion failed: token expected not to be null.")
  | .whitespace, some t =>
    if is_js_whitespace c then
      .next .whitespace (some { t with length := t.length + 1 }) nest acc
    else
      undetermined_step c la i line col nest (acc ++ [t])
  | .word, some t =>
    if is_word_boundary c la then
      undetermined_step c la i line col nest (acc ++ [t])
    else
      .next .word (some { t with length := t.length + 1 }) nest acc
  | .dqString, some t =>
    if c = '"' ∧ prev ≠ some '\\' then
      .next .undetermined none nest (acc ++ [{ t with length := t.length + 1 }])
    else
      .next .dqString (some { t with length := t.length + 1 }) nest acc
  | .sqString, some t =>
    if c = single_quote_char ∧ prev ≠ some '\\' then
      .next .undetermined none nest (acc ++ [{ t with length := t.length + 1 }])
    else
      .next .sqString (some { t with length := t.length + 1 }) nest acc
  | .slComment, some t =>
    if c = '\n' then
      .next .undetermined none nest (acc ++ [{ t with length := t.length + 1 }])
    else
      .next .slComment (some { t with length := t.length + 1 }) nest acc
  | .mlCommentStart, some t =>
    if nest = 0 then
      .halt (.exn "Assertion failed: multi-lien comment nesting level expected to be greater than 0")
    else if c ≠ '|' then
      .halt (.exn "Assertion failed: Expected | but got something else")
    else
      .next .mlComment (some { t with length := t.length + 1 }) nest acc
  | .mlComment, some t =>
    if nest = 0 then
      .halt (.exn "Assertion failed: ")
    else if c = '#' ∧ la = some '|' then
      .next .mlCommentStart (some { t with length := t.length + 1 }) (nest + 1) acc
    else if c = '|' ∧ la = some '#' then
      .next .mlCommentEnd (some { t with length := t.length + 1 }) nest acc
    else
      .next .mlComment (some { t with length := t.length + 1 }) nest acc
  | .mlCommentEnd, some t =>
    if nest = 0 then
      .halt (.exn "Assertion failed: ")
    else if c ≠ '#' then
      .halt (.exn "Assertion failed: Expected # but got something else")
    else if nest - 1 = 0 then
      .next .undetermined none (nest - 1) (acc ++ [{ t with length := t.length + 1 }])
    else
      .next .mlComment (some { t with length := t.length + 1 }) (nest - 1) acc

/-- The final assertions after the loop (syntax.js lines 783-785) followed by
the successful return. -/
def tokenize_final_checks (mode : Mode) (nest : Nat) (acc : List Token) : TokenizationResult :=
  if nest ≠ 0 then .exn "Assertion failed: "
  else if mode ≠ .undetermined then
    .exn "Assertion failed: Expected mode to be MODE_UNDETERMINED"
  else .ok acc

/-- End-of-input handling of a work-in-progress token (syntax.js lines
635-781) followed by the final checks.  Note that the source handles the
whitespace, single-line comment, double-quote string, word and multi-line
comment modes, and falls into `error_unexpected_unimplemented` for every
other mode holding a pending token: in particular an unterminated
single-quote string throws. -/
def tokenize_finish (mode : Mode) (tok : Option Token) (nest : Nat)
    (acc : List Token) : TokenizationResult :=
  match tok with
  | none => tokenize_final_checks mode nest acc
  | some t =>
    match mode with
    | .undetermined => .exn "Unexpected error: Mode should not be unknown if token is not null."
    | .whitespace => tokenize_final_checks .undetermined nest (acc ++ [t])
    | .slComment => tokenize_final_checks .undetermined nest (acc ++ [t])
    | .dqString => .err ERROR_CODE_UNTERMINATED_STRING 0
    | .word => tokenize_final_checks .undetermined nest (acc ++ [t])
    | .mlComment => .err ERROR_CODE_UNTERMINATED_MULTI_LINE_COMMENT nest
    | .sqString =>
      .exn ("Unexpected error: not implemented: Leftover token: mode(" ++
        toString (mode_code .sqString) ++ "): not implemented!")
    | .mlCommentStart =>
      .exn ("Unexpected error: not implemented: Leftover token: mode(" ++
        toString (mode_code .mlCommentStart) ++ "): not implemented!")
    | .mlCommentEnd =>
      .exn ("Unexpected error: not implemented: Leftover token: mode(" ++
        toString (mode_code .mlCommentEnd) ++ "): not implemented!")

/-- The main character loop of `tokenize` (syntax.js lines 418-631), with the
line/column bookkeeping of lines 625-630. -/
def tokenize_loop : List Char → Option Char → Nat → Nat → Nat →
    Mode → Option Token → Nat → List Token → TokenizationResult
| [], _, _, _, _, mode, tok, nest, acc => tokenize_finish mode tok nest acc
| c :: rest, prev, i, line, col, mode, tok, nest, acc =>
  match tokenize_step c rest.head? prev i line col mode tok nest acc with
  | .halt f => f.toResult
  | .next mode₂ tok₂ nest₂ acc₂ =>
    if c = '\n' then
      tokenize_loop rest (some c) (i + 1) (line + 1) 0 mode₂ tok₂ nest₂ acc₂
    else
      tokenize_loop rest (some c) (i + 1) line (col + 1) mode₂ tok₂ nest₂ acc₂

/-- `tokenize` (syntax.js lines 399-791). -/
def tokenize (text : List Char) : TokenizationResult :=
  tokenize_loop text none 0 0 0 .undetermined none 0 []

/-! ## Parse nodes

In syntax.js a `ParseNode` is either a `Token` or a `ParseNodeList` (a class
with fields `type` (always `PARSE_NODE_TYPE_LIST = 200`), `index`, `length`,
`line`, `column` and a `value` array of child nodes).  The constant `type`
discriminant is the constructor here. -/

inductive ParseNode where
| token (t : Token)
| list (index : Nat) (length : Nat) (line : Nat) (column : Nat) (value : List ParseNode)

/-- The `length` field of a parse node (a token's own length, or the
accumulated span length of a list node). -/
def ParseNode.length : ParseNode → Nat
| .token t => t.length
| .list _ l _ _ _ => l

/-- A `ParseNodeList` under construction (syntax.js class `ParseNodeList`,
lines 237-257; the constant `type` field is omitted). -/
structure ParseNodeList where
  index : Nat
  length : Nat
  line : Nat
  column : Nat
  value : List ParseNode

/-- `parse_node_list_add_child_length` (syntax.js lines 264-266). -/
def parse_node_list_add_child_length (b : ParseNodeList) (child : ParseNode) :
    ParseNodeList :=
  { b with length := b.length + child.length }

/-- `parse_node_list_add_child` (syntax.js lines 273-276). -/
def parse_node_list_add_child (b : ParseNodeList) (child : ParseNode) :
    ParseNodeList :=
  { b with length := b.length + child.length, value := b.value ++ [child] }

/-- The finished node of a completed `ParseNodeList`. -/
def ParseNodeList.toNode (b : ParseNodeList) : ParseNode :=
  .list b.index b.length b.line b.column b.value

/-- `GET_CLOSE_VARIANT` (syntax.js lines 202-206): maps the lexeme of an
opening list delimiter to the expected closing lexeme, `none` (undefined) on
any other key. -/
def GET_CLOSE_VARIANT : List Char → Option (List Char)
| ['('] => some [')']
| ['{'] => some ['}']
| ['['] => some [']']
| _ => none

/-- The (index, line, column) position handed to `create_error_message`
(syntax.js lines 377-389) when an error message is rendered. -/
structure ErrPos where
  index : Nat
  line : Nat
  column : Nat
deriving DecidableEq, Repr

/-- `ParseResult`.  `err` carries the stable `error_code`, the
`data.nesting_level` field when the error object has one (the parser's own
errors do, a propagated tokenizer error does not), and the position passed to
`create_error_message` for the errors rendered with that helper (`none` for
propagated tokenizer errors and for the `DelimMismatch` message, which is
rendered from the two delimiter tokens by a separate multi-excerpt renderer,
syntax.js lines 902-956).  `exn` is a thrown exception. -/
inductive ParseResult where
| ok (parse_trees : List ParseNode)
| err (error_code : Nat) (nesting_level : Option Nat) (cited : Option ErrPos)
| exn (message : String)

def ParseResult.isOk : ParseResult → Bool
| .ok _ => true
| _ => false

/-- The token loop of `parse` (syntax.js lines 826-1005).  The two stacks grow
at the head: `dstack` is `list_delim_stack`, `nstack` is
`parse_node_list_stack` (head = `parse_node_list_stack[length - 1]`).
Accessing a stack element that is not there (impossible for inputs produced by
`tokenize`) is a thrown `TypeError` in JS and is modelled as `exn`. -/
def parse_loop (text : List Char)
    (include_comments include_whitespace include_list_delimiters : Bool) :
    List Token → List Token → List ParseNodeList → ParseResult
| [], dstack, nstack =>
  match nstack with
  | [root] => .ok root.value
  | [] => .exn "Assertion failed: Expected parse tree stack to only contain one element"
  | _ :: _ :: _ =>
    match dstack with
    | d :: _ =>
      .err ERROR_CODE_UNCLOSED_DELIMITER (some dstack.length)
        (some ⟨d.index, d.line, d.column⟩)
    | [] => .exn "TypeError: reading property of undefined delimiter token"
| t :: ts, dstack, nstack =>
  match nstack with
  | [] => .exn "TypeError: adding child to undefined parse node list"
  | top :: rest =>
    if t.type = TOKEN_TYPE_WHITESPACE then
      let top₂ := if include_whitespace then parse_node_list_add_child top (.token t)
        else parse_node_list_add_child_length top (.token t)
      parse_loop text include_comments include_whitespace include_list_delimiters
        ts dstack (top₂ :: rest)
    else if t.type = TOKEN_TYPE_WORD ∨ t.type = TOKEN_TYPE_DOUBLE_QUOTE_STRING ∨
        t.type = TOKEN_TYPE_SINGLE_QUOTE_STRING then
      parse_loop text include_comments include_whitespace include_list_delimiters
        ts dstack (parse_node_list_add_child top (.token t) :: rest)
    else if t.type = TOKEN_TYPE_LIST_DELIMITER_OPEN then
      let fresh : ParseNodeList := ⟨t.index, 0, t.line, t.column, []⟩
      let fresh₂ := if include_list_delimiters then parse_node_list_add_child fresh (.token t)
        else parse_node_list_add_child_length fresh (.token t)
      parse_loop text include_comments include_whitespace include_list_delimiters
        ts (t :: dstack) (fresh₂ :: top :: rest)
    else if t.type = TOKEN_TYPE_SINGLE_LINE_COMMENT ∨ t.type = TOKEN_TYPE_MULTI_LINE_COMMENT then
      let top₂ := if include_comments then parse_node_list_add_child top (.token t)
        else parse_node_list_add_child_length top (.token t)
      parse_loop text include_comments include_whitespace include_list_delimiters
        ts dstack (top₂ :: rest)
    else if t.type = TOKEN_TYPE_LIST_DELIMITER_CLOSE then
      let top₂ := if include_list_delimiters then parse_node_list_add_child top (.token t)
        else parse_node_list_add_child_length top (.token t)
      match dstack with
      | [] =>
        .err ERROR_CODE_UNEXPECTED_CLOSING_DELIMITER (some 0)
          (some ⟨t.index, t.line, t.column⟩)
      | d :: ds =>
        if GET_CLOSE_VARIANT (lexeme text d) = some (lexeme text t) then
          match rest with
          | parent :: rest₂ =>
            parse_loop text include_comments include_whitespace include_list_delimiters
              ts ds (parse_node_list_add_child parent top₂.toNode :: rest₂)
          | [] => .exn "TypeError: adding child to undefined parse node list"
        else
          .err ERROR_CODE_DELIM_MISMATCH (some ds.length) none
    else
      .exn ("Unexpected error: not implemented: Unimplemented for token: " ++ toString t.type)

/-- `parse` (syntax.js lines 806-1005).  A tokenizer error is propagated
verbatim (its result object has no `data` field, hence `nesting_level` is
`none`). -/
def parse (text : List Char)
    (include_comments : Bool := true) (include_whitespace : Bool := true)
    (include_list_delimiters : Bool := true) : ParseResult :=
  match tokenize text with
  | .ok tokens =>
    parse_loop text include_comments include_whitespace include_list_delimiters
      tokens [] [⟨0, 0, 0, 0, []⟩]
  | .err code _ => .err code none none
  | .exn m => .exn m

/-! ## Specification-side definitions

The definitions below restate properties claimed by the specification in a
form independent of the scanning loops; the theorems relate them to the
implementation above. -/

/-- `coversFrom start ts stop`: the tokens `ts` tile the index interval
`[start, stop)` exactly — consecutive, gap-free, overlap-free, every token
non-empty. -/
def coversFrom : Nat → List Token → Nat → Prop
| start, [], stop => start = stop
| start, t :: ts, stop =>
  t.index = start ∧ 0 < t.length ∧ coversFrom (start + t.length) ts stop

/-- The eight token types the tokenizer can emit. -/
def validType (t : Token) : Prop :=
  t.type = TOKEN_TYPE_WHITESPACE ∨ t.type = TOKEN_TYPE_WORD ∨
  t.type = TOKEN_TYPE_DOUBLE_QUOTE_STRING ∨ t.type = TOKEN_TYPE_SINGLE_QUOTE_STRING ∨
  t.type = TOKEN_TYPE_LIST_DELIMITER_OPEN ∨ t.type = TOKEN_TYPE_LIST_DELIMITER_CLOSE ∨
  t.type = TOKEN_TYPE_SINGLE_LINE_COMMENT ∨ t.type = TOKEN_TYPE_MULTI_LINE_COMMENT

/-- Modelled from the spec: the offset (relative to the remaining input
`rest`) of the first character that closes a quoted string opened with quote
character `q` — the first later occurrence of `q` whose immediately preceding
character (`prev` for the first position) is not a backslash — or `none` when
no such character exists. -/
def quote_close_index (q : Char) : List Char → Option Char → Option Nat
| [], _ => none
| c :: cs, prev =>
  if c = q ∧ prev ≠ some '\\' then some 0
  else (quote_close_index q cs (some c)).map (· + 1)

/-- Advance a (line, column) position over a list of consumed characters,
with the bookkeeping of syntax.js lines 625-630. -/
def advPos : Nat → Nat → List Char → Nat × Nat
| line, col, [] => (line, col)
| line, col, c :: cs =>
  if c = '\n' then advPos (line + 1) 0 cs else advPos line (col + 1) cs

/-- Modelled from the spec: the open-delimiter bookkeeping of the parser in
isolation.  Walking the token list, opening delimiters are pushed; a closing
delimiter pops the innermost open delimiter when its lexeme matches, and any
parse-aborting situation (stray close, family mismatch) yields `none`.  The
result is the stack of still-open delimiter tokens, innermost first. -/
def delimScan (text : List Char) : List Token → List Token → Option (List Token)
| [], dstack => some dstack
| t :: ts, dstack =>
  if t.type = TOKEN_TYPE_LIST_DELIMITER_CLOSE then
    match dstack with
    | [] => none
    | d :: ds =>
      if GET_CLOSE_VARIANT (lexeme text d) = some (lexeme text t) then
        delimScan text ts ds
      else none
  else if t.type = TOKEN_TYPE_LIST_DELIMITER_OPEN then delimScan text ts (t :: dstack)
  else delimScan text ts dstack

/-- A parse node whose every list node records as `length` exactly the sum of
the lengths of its children. -/
inductive GoodNode : ParseNode → Prop where
| token (t : Token) : GoodNode (.token t)
| list (index len line column : Nat) (cs : List ParseNode)
    (hlen : len = (cs.map ParseNode.length).sum)
    (hcs : ∀ c ∈ cs, GoodNode c) :
    GoodNode (.list index len line column cs)

/-- The sum of the lengths of all leaf tokens under a node — the tokens the
node logically spans. -/
def ParseNode.tokenSpan : ParseNode → Nat
| .token t => t.length
| .list _ _ _ _ cs => (cs.attach.map (fun c => c.1.tokenSpan)).sum
decreasing_by
  have h := List.sizeOf_lt_of_mem c.2
  simp only [ParseNode.list.sizeOf_spec]
  omega

/-- A `ParseNodeList` under construction with consistent length accounting. -/
def goodBuilder (b : ParseNodeList) : Prop :=
  b.length = (b.value.map ParseNode.length).sum ∧ ∀ c ∈ b.value, GoodNode c

mutual

/-- Modelled from the spec: the effect of the three include-flags on a tree
produced with all flags enabled.  A token child of an excluded category is
dropped; list nodes are kept with their recorded fields unchanged and their
children filtered recursively. -/
def filterTree (ic iw id : Bool) : ParseNode → Option ParseNode
| .token t =>
  if t.type = TOKEN_TYPE_WHITESPACE then
    if iw then some (.token t) else none
  else if t.type = TOKEN_TYPE_SINGLE_LINE_COMMENT ∨ t.type = TOKEN_TYPE_MULTI_LINE_COMMENT then
    if ic then some (.token t) else none
  else if t.type = TOKEN_TYPE_LIST_DELIMITER_OPEN ∨ t.type = TOKEN_TYPE_LIST_DELIMITER_CLOSE then
    if id then some (.token t) else none
  else some (.token t)
| .list index len line column cs => some (.list index len line column (filterChildren ic iw id cs))

/-- `filterTree` mapped over a list of children, dropping the `none`s. -/
def filterChildren (ic iw id : Bool) : List ParseNode → List ParseNode
| [] => []
| c :: cs =>
  match filterTree ic iw id c with
  | some c₂ => c₂ :: filterChildren ic iw id cs
  | none => filterChildren ic iw id cs

end

/-- Lift `filterChildren` to a parse result. -/
def filter_result (ic iw id : Bool) : ParseResult → ParseResult
| .ok trees => .ok (filterChildren ic iw id trees)
| r => r

/-- Pointwise relation between a node-list stack of a run with flags
`(ic, iw, id)` and the stack of the all-flags-true run on the same input:
same recorded fields, children filtered. -/
inductive StackRel (ic iw id : Bool) : List ParseNodeList → List ParseNodeList → Prop where
| nil : StackRel ic iw id [] []
| cons {bf bt : ParseNodeList} {nsf nst : List ParseNodeList}
    (hindex : bf.index = bt.index) (hlength : bf.length = bt.length)
    (hline : bf.line = bt.line) (hcolumn : bf.column = bt.column)
    (hvalue : bf.value = filterChildren ic iw id bt.value)
    (htail : StackRel ic iw id nsf nst) :
    StackRel ic iw id (bf :: nsf) (bt :: nst)

/-! ## Tokenizer invariants -/

theorem coversFrom_append {s m e : Nat} {xs ys : List Token}
    (hx : coversFrom s xs m) (hy : coversFrom m ys e) : coversFrom s (xs ++ ys) e := by
  induction xs generalizing s with
  | nil => simp only [coversFrom] at hx; simpa [hx]
  | cons t ts ih =>
    obtain ⟨h1, h2, h3⟩ := hx
    exact ⟨h1, h2, ih h3⟩

theorem coversFrom_snoc {s m : Nat} {xs : List Token} {t : Token}
    (hx : coversFrom s xs m) (hidx : t.index = m) (hpos : 0 < t.length) :
    coversFrom s (xs ++ [t]) (m + t.length) :=
  coversFrom_append hx ⟨hidx, hpos, rfl⟩

theorem coversFrom_pos {s e : Nat} {xs : List Token} (h : coversFrom s xs e) :
    ∀ t ∈ xs, 0 < t.length := by
  induction xs generalizing s with
  | nil => simp
  | cons t ts ih =>
    obtain ⟨_, h2, h3⟩ := h
    intro u hu
    rcases List.mem_cons.mp hu with rfl | hu
    · exact h2
    · exact ih h3 u hu

theorem coversFrom_sum {s e : Nat} {xs : List Token} (h : coversFrom s xs e) :
    s + (xs.map Token.length).sum = e := by
  induction xs generalizing s with
  | nil => simpa [coversFrom] using h
  | cons t ts ih =>
    obtain ⟨_, _, h3⟩ := h
    have := ih h3
    simp only [List.map_cons, List.sum_cons]
    omega

theorem coversFrom_join (text : List Char) : ∀ (xs : List Token) (s : Nat),
    coversFrom s xs text.length → (xs.map (lexeme text)).flatten = text.drop s := by
  intro xs
  induction xs with
  | nil =>
    intro s h
    simp only [coversFrom] at h
    simp [List.drop_eq_nil_of_le (le_of_eq h.symm)]
  | cons t ts ih =>
    intro s h
    obtain ⟨hidx, _, h3⟩ := h
    have htail := ih (s + t.length) h3
    have hdd : List.drop (s + t.length) text = List.drop t.length (List.drop s text) := by
      rw [List.drop_drop, Nat.add_comm]
    simp only [List.map_cons, List.flatten_cons, htail, lexeme, hidx, hdd]
    exact List.take_append_drop _ _

/-- The loop invariant of the tokenizer: the emitted tokens tile the interval
up to the start of the pending token (or the cursor when there is none), the
pending token extends to the cursor, and all token types are valid. -/
def TokInv (i : Nat) (tok : Option Token) (acc : List Token) : Prop :=
  (∀ t ∈ acc, validType t) ∧
  match tok with
  | none => coversFrom 0 acc i
  | some t => validType t ∧ coversFrom 0 acc t.index ∧ t.index + t.length = i ∧ 0 < t.length

theorem TokInv_none {i : Nat} {acc : List Token} :
    TokInv i none acc ↔ (∀ t ∈ acc, validType t) ∧ coversFrom 0 acc i := Iff.rfl

theorem TokInv_some {i : Nat} {t : Token} {acc : List Token} :
    TokInv i (some t) acc ↔ (∀ u ∈ acc, validType u) ∧ validType t ∧
      coversFrom 0 acc t.index ∧ t.index + t.length = i ∧ 0 < t.length := Iff.rfl

theorem mem_append_singleton {α : Type} {xs : List α} {u t : α}
    (ht : t ∈ xs ++ [u]) : t ∈ xs ∨ t = u := by
  rcases List.mem_append.mp ht with ht | ht
  · exact Or.inl ht
  · exact Or.inr (List.mem_singleton.mp ht)

theorem undetermined_step_inv {c : Char} {la : Option Char} {i line col nest : Nat}
    {acc : List Token} (hacc : ∀ t ∈ acc, validType t) (hcov : coversFrom 0 acc i)
    {m₂ : Mode} {t₂ : Option Token} {n₂ : Nat} {a₂ : List Token}
    (h : undetermined_step c la i line col nest acc = .next m₂ t₂ n₂ a₂) :
    TokInv (i + 1) t₂ a₂ := by
  have happ : ∀ (u : Token), validType u → ∀ t ∈ acc ++ [u], validType t := by
    intro u hu t ht
    rcases mem_append_singleton ht with ht | rfl
    · exact hacc t ht
    · exact hu
  have hsnoc : ∀ ty, coversFrom 0 (acc ++ [⟨ty, i, 1, line, col⟩]) (i + 1) :=
    fun ty => coversFrom_snoc hcov rfl Nat.one_pos
  unfold undetermined_step at h
  split_ifs at h
  · cases h
    exact TokInv_none.mpr ⟨happ _ (.inr (.inr (.inr (.inr (.inl rfl))))), hsnoc _⟩
  · cases h
    exact TokInv_none.mpr ⟨happ _ (.inr (.inr (.inr (.inr (.inr (.inl rfl)))))), hsnoc _⟩
  · cases h
    exact TokInv_some.mpr ⟨hacc, .inl rfl, hcov, rfl, Nat.one_pos⟩
  · cases h
    exact TokInv_some.mpr ⟨hacc, .inr (.inr (.inr (.inr (.inr (.inr (.inl rfl)))))),
      hcov, rfl, Nat.one_pos⟩
  · cases h
    exact TokInv_some.mpr ⟨hacc, .inr (.inr (.inr (.inr (.inr (.inr (.inr rfl)))))),
      hcov, rfl, Nat.one_pos⟩
  · cases h
    exact TokInv_some.mpr ⟨hacc, .inr (.inr (.inl rfl)), hcov, rfl, Nat.one_pos⟩
  · cases h
    exact TokInv_some.mpr ⟨hacc, .inr (.inr (.inr (.inl rfl))), hcov, rfl, Nat.one_pos⟩
  · cases h
    exact TokInv_some.mpr ⟨hacc, .inr (.inl rfl), hcov, rfl, Nat.one_pos⟩

theorem tokenize_step_inv {c : Char} {la prev : Option Char} {i line col : Nat}
    {mode : Mode} {tok : Option Token} {nest : Nat} {acc : List Token}
    (h : TokInv i tok acc)
    {m₂ : Mode} {t₂ : Option Token} {n₂ : Nat} {a₂ : List Token}
    (hstep : tokenize_step c la prev i line col mode tok nest acc = .next m₂ t₂ n₂ a₂) :
    TokInv (i + 1) t₂ a₂ := by
  obtain ⟨hacc, hrest⟩ := h
  have happ : ∀ (u : Token), validType u → ∀ t ∈ acc ++ [u], validType t := by
    intro u hu t ht
    rcases mem_append_singleton ht with ht | rfl
    · exact hacc t ht
    · exact hu
  cases tok with
  | none =>
    cases mode <;> simp only [tokenize_step] at hstep
    case undetermined => exact undetermined_step_inv hacc hrest hstep
    all_goals cases hstep
  | some t =>
    obtain ⟨hvt, hcov, hi, hpos⟩ := hrest
    have hcov₂ : coversFrom 0 (acc ++ [t]) i := by
      have := coversFrom_snoc hcov rfl hpos
      rwa [hi] at this
    have hext : coversFrom 0 (acc ++ [{ t with length := t.length + 1 }]) (i + 1) := by
      have h2 := coversFrom_snoc (t := { t with length := t.length + 1 }) hcov rfl
        (by omega : (0:Nat) < t.length + 1)
      have he : t.index + (t.length + 1) = i + 1 := by omega
      rwa [he] at h2
    cases mode <;> simp only [tokenize_step] at hstep
    case undetermined => cases hstep
    case whitespace =>
      split_ifs at hstep with hc
      · cases hstep
        exact TokInv_some.mpr ⟨hacc, hvt, hcov,
          (show t.index + (t.length + 1) = i + 1 by omega),
          (show 0 < t.length + 1 by omega)⟩
      · exact undetermined_step_inv (happ t hvt) hcov₂ hstep
    case word =>
      split_ifs at hstep with hc
      · exact undetermined_step_inv (happ t hvt) hcov₂ hstep
      · cases hstep
        exact TokInv_some.mpr ⟨hacc, hvt, hcov,
          (show t.index + (t.length + 1) = i + 1 by omega),
          (show 0 < t.length + 1 by omega)⟩
    case dqString =>
      split_ifs at hstep with hc
      · cases hstep
        exact TokInv_none.mpr ⟨happ _ hvt, hext⟩
      · cases hstep
        exact TokInv_some.mpr ⟨hacc, hvt, hcov,
          (show t.index + (t.length + 1) = i + 1 by omega),
          (show 0 < t.length + 1 by omega)⟩
    case sqString =>
      split_ifs at hstep with hc
      · cases hstep
        exact TokInv_none.mpr ⟨happ _ hvt, hext⟩
      · cases hstep
        exact TokInv_some.mpr ⟨hacc, hvt, hcov,
          (show t.index + (t.length + 1) = i + 1 by omega),
          (show 0 < t.length + 1 by omega)⟩
    case slComment =>
      split_ifs at hstep with hc
      · cases hstep
        exact TokInv_none.mpr ⟨happ _ hvt, hext⟩
      · cases hstep
        exact TokInv_some.mpr ⟨hacc, hvt, hcov,
          (show t.index + (t.length + 1) = i + 1 by omega),
          (show 0 < t.length + 1 by omega)⟩
    case mlCommentStart =>
      split_ifs at hstep
      cases hstep
      exact TokInv_some.mpr ⟨hacc, hvt, hcov,
        (show t.index + (t.length + 1) = i + 1 by omega),
        (show 0 < t.length + 1 by omega)⟩
    case mlComment =>
      split_ifs at hstep
      · cases hstep
        exact TokInv_some.mpr ⟨hacc, hvt, hcov,
          (show t.index + (t.length + 1) = i + 1 by omega),
          (show 0 < t.length + 1 by omega)⟩
      · cases hstep
        exact TokInv_some.mpr ⟨hacc, hvt, hcov,
          (show t.index + (t.length + 1) = i + 1 by omega),
          (show 0 < t.length + 1 by omega)⟩
      · cases hstep
        exact TokInv_some.mpr ⟨hacc, hvt, hcov,
          (show t.index + (t.length + 1) = i + 1 by omega),
          (show 0 < t.length + 1 by omega)⟩
    case mlCommentEnd =>
      split_ifs at hstep
      · cases hstep
        exact TokInv_none.mpr ⟨happ _ hvt, hext⟩
      · cases hstep
        exact TokInv_some.mpr ⟨hacc, hvt, hcov,
          (show t.index + (t.length + 1) = i + 1 by omega),
          (show 0 < t.length + 1 by omega)⟩

theorem tokenize_final_checks_ok {mode : Mode} {nest : Nat} {acc tokens : List Token}
    (h : tokenize_final_checks mode nest acc = .ok tokens) : tokens = acc := by
  unfold tokenize_final_checks at h
  split_ifs at h
  injection h with h2
  exact h2.symm

theorem tokenize_finish_master {i : Nat} {mode : Mode} {tok : Option Token} {nest : Nat}
    {acc tokens : List Token} (h : TokInv i tok acc)
    (hfin : tokenize_finish mode tok nest acc = .ok tokens) :
    coversFrom 0 tokens i ∧ ∀ t ∈ tokens, validType t := by
  obtain ⟨hacc, hrest⟩ := h
  have happ : ∀ (u : Token), validType u → ∀ t ∈ acc ++ [u], validType t := by
    intro u hu t ht
    rcases mem_append_singleton ht with ht | rfl
    · exact hacc t ht
    · exact hu
  cases tok with
  | none =>
    simp only [tokenize_finish] at hfin
    cases tokenize_final_checks_ok hfin
    exact ⟨hrest, hacc⟩
  | some t =>
    obtain ⟨hvt, hcov, hi, hpos⟩ := hrest
    have hsnoc : coversFrom 0 (acc ++ [t]) i := by
      have := coversFrom_snoc hcov rfl hpos
      rwa [hi] at this
    cases mode <;> simp only [tokenize_finish] at hfin
    case undetermined => cases hfin
    case whitespace =>
      cases tokenize_final_checks_ok hfin
      exact ⟨hsnoc, happ t hvt⟩
    case word =>
      cases tokenize_final_checks_ok hfin
      exact ⟨hsnoc, happ t hvt⟩
    case slComment =>
      cases tokenize_final_checks_ok hfin
      exact ⟨hsnoc, happ t hvt⟩
    case dqString => cases hfin
    case sqString => cases hfin
    case mlComment => cases hfin
    case mlCommentStart => cases hfin
    case mlCommentEnd => cases hfin

theorem tokenize_loop_master : ∀ (rest : List Char) (prev : Option Char)
    (i line col : Nat) (mode : Mode) (tok : Option Token) (nest : Nat)
    (acc tokens : List Token),
    TokInv i tok acc →
    tokenize_loop rest prev i line col mode tok nest acc = .ok tokens →
    coversFrom 0 tokens (i + rest.length) ∧ ∀ t ∈ tokens, validType t := by
  intro rest
  induction rest with
  | nil =>
    intro prev i line col mode tok nest acc tokens h hloop
    simpa using tokenize_finish_master h hloop
  | cons c cs ih =>
    intro prev i line col mode tok nest acc tokens h hloop
    rw [tokenize_loop] at hloop
    rcases hstep : tokenize_step c cs.head? prev i line col mode tok nest acc with
      ⟨m₂, t₂, n₂, a₂⟩ | f
    · rw [hstep] at hloop
      simp only at hloop
      have hinv := tokenize_step_inv h hstep
      have hlen : i + (c :: cs).length = (i + 1) + cs.length := by
        simp only [List.length_cons]
        omega
      rw [hlen]
      split at hloop
      · exact ih (some c) (i + 1) (line + 1) 0 m₂ t₂ n₂ a₂ tokens hinv hloop
      · exact ih (some c) (i + 1) line (col + 1) m₂ t₂ n₂ a₂ tokens hinv hloop
    · rw [hstep] at hloop
      cases f <;> simp [TokFail.toResult] at hloop

/-- C1.  For every text on which `tokenize` succeeds, the emitted tokens tile
the text exactly: concatenating the lexemes in emission order reconstructs the
text, the tokens cover `[0, text.length)` contiguously with no gaps and no
overlaps, and every token has positive length. -/
theorem tokenize_lossless (text : List Char) (tokens : List Token)
    (h : tokenize text = .ok tokens) :
    (tokens.map (lexeme text)).flatten = text ∧
    coversFrom 0 tokens text.length ∧
    ∀ t ∈ tokens, 0 < t.length := by
  have hm := tokenize_loop_master text none 0 0 0 .undetermined none 0 [] tokens
    (by constructor <;> simp [coversFrom]) h
  have hcov : coversFrom 0 tokens text.length := by simpa using hm.1
  have hjoin := coversFrom_join text tokens 0 hcov
  exact ⟨by simpa using hjoin, hcov, coversFrom_pos hcov⟩

/-- Witness for C1 at the concrete input `"a"`. -/
theorem tokenize_lossless_witness :
    (([⟨TOKEN_TYPE_WORD, 0, 1, 0, 0⟩] : List Token).map (lexeme ['a'])).flatten = ['a'] ∧
    coversFrom 0 [⟨TOKEN_TYPE_WORD, 0, 1, 0, 0⟩] (['a'] : List Char).length ∧
    ∀ t ∈ ([⟨TOKEN_TYPE_WORD, 0, 1, 0, 0⟩] : List Token), 0 < t.length :=
  tokenize_lossless ['a'] [⟨TOKEN_TYPE_WORD, 0, 1, 0, 0⟩] rfl

/-! ## C2, C3: unterminated quoted strings at end of input -/

/-- C2.  A text ending inside a double-quote string tokenizes to the
structured error `UnterminatedString` (8), but a text ending inside a
single-quote string does not: the end-of-input dispatch of syntax.js
lines 635-781 has no case for `MODE_SINGLE_QUOTE_STRING`, so the input
consisting of a single quote followed by `a` falls into
`error_unexpected_unimplemented` and throws instead of returning an error
result. -/
theorem tokenize_unterminated_string_outcomes :
    tokenize ['"', 'a'] = .err ERROR_CODE_UNTERMINATED_STRING 0 ∧
    tokenize [single_quote_char, 'a'] =
      .exn "Unexpected error: not implemented: Leftover token: mode(16): not implemented!" :=
  ⟨rfl, rfl⟩

/-- C3.  `tokenize` can raise: on the one-character input consisting of a
single quote it throws (modelled `exn`) rather than returning a structured
result. -/
theorem tokenize_single_quote_raises :
    tokenize [single_quote_char] =
      .exn "Unexpected error: not implemented: Leftover token: mode(16): not implemented!" :=
  rfl

/-! ## C7: multi-line comment nesting -/

/-- C7.  The balanced nested input tokenizes to a single `MultiLineComment`
token; every truncated variant fails with `UnterminatedMultiLineComment`
(16), and the `missing_delims` count interpolated into the message equals the
outstanding nesting depth. -/
theorem multi_line_comment_nesting :
    tokenize "#|a#|b|#c|#".toList =
      .ok [⟨TOKEN_TYPE_MULTI_LINE_COMMENT, 0, 11, 0, 0⟩] ∧
    tokenize "#|".toList = .err ERROR_CODE_UNTERMINATED_MULTI_LINE_COMMENT 1 ∧
    tokenize "#|#".toList = .err ERROR_CODE_UNTERMINATED_MULTI_LINE_COMMENT 1 ∧
    tokenize "#||".toList = .err ERROR_CODE_UNTERMINATED_MULTI_LINE_COMMENT 1 ∧
    tokenize "#|#|".toList = .err ERROR_CODE_UNTERMINATED_MULTI_LINE_COMMENT 2 ∧
    tokenize "#|#||".toList = .err ERROR_CODE_UNTERMINATED_MULTI_LINE_COMMENT 2 ∧
    tokenize "#|#||#".toList = .err ERROR_CODE_UNTERMINATED_MULTI_LINE_COMMENT 1 ∧
    tokenize "#|#||#|".toList = .err ERROR_CODE_UNTERMINATED_MULTI_LINE_COMMENT 1 :=
  ⟨rfl, rfl, rfl, rfl, rfl, rfl, rfl, rfl⟩

/-! ## C8: quoted-string scanning -/

/-- C8.  Once the tokenizer is inside a quoted-string mode, its behaviour is
exactly described by `quote_close_index`: it extends the pending token over
every character (newlines included); if no later occurrence of the opening
quote character has a non-backslash character immediately before it, the scan
reaches end of input still inside the string (for a double-quote string that
finalizes to `UnterminatedString`); otherwise the token closes exactly at the
first such occurrence, having consumed it.  In particular the four-character
text quote-backslash-quote-quote is one complete string token, and a closing
quote preceded by a backslash — even an escaped one — leaves the string open. -/
theorem dq_mode_run : ∀ (rest : List Char) (prev : Option Char) (i line col nest : Nat)
    (t : Token) (acc : List Token),
    tokenize_loop rest prev i line col .dqString (some t) nest acc =
      match quote_close_index '"' rest prev with
      | none =>
        tokenize_finish .dqString (some ⟨t.type, t.index, t.length + rest.length, t.line, t.column⟩)
          nest acc
      | some k =>
        tokenize_loop (rest.drop (k + 1)) (some '"') (i + (k + 1))
          (advPos line col (rest.take (k + 1))).1 (advPos line col (rest.take (k + 1))).2
          .undetermined none nest
          (acc ++ [⟨t.type, t.index, t.length + (k + 1), t.line, t.column⟩]) := by
  intro rest
  induction rest with
  | nil => intro prev i line col nest t acc; rfl
  | cons c cs ih =>
    intro prev i line col nest t acc
    rw [tokenize_loop]
    simp only [tokenize_step]
    by_cases hc : c = '"' ∧ prev ≠ some '\\'
    case pos =>
      obtain ⟨hc1, hc2⟩ := hc
      subst hc1
      have hqi : quote_close_index '"' ('"' :: cs) prev = some 0 := by
        simp [quote_close_index, hc2]
      rw [hqi, if_pos (show '"' = '"' ∧ prev ≠ some '\\' from ⟨rfl, hc2⟩)]
      rfl
    case neg =>
      rw [if_neg hc]
      have hq2 : quote_close_index '"' (c :: cs) prev =
          (quote_close_index '"' cs (some c)).map (· + 1) := by
        rw [quote_close_index, if_neg hc]
      rw [hq2]
      dsimp only
      by_cases hnl : c = '\n'
      · rw [if_pos hnl]
        rw [ih (some c) (i + 1) (line + 1) 0 nest { t with length := t.length + 1 } acc]
        cases hqc : quote_close_index '"' cs (some c) with
        | none =>
          simp only [Option.map, List.length_cons]
          rw [show t.length + (cs.length + 1) = t.length + 1 + cs.length from by omega]
        | some k =>
          dsimp only [Option.map]
          subst hnl
          rw [show ('\n' :: cs).drop (k + 1 + 1) = cs.drop (k + 1) from rfl,
            show ('\n' :: cs).take (k + 1 + 1) = '\n' :: cs.take (k + 1) from rfl,
            show i + (k + 1 + 1) = i + 1 + (k + 1) from by omega,
            show t.length + (k + 1 + 1) = t.length + 1 + (k + 1) from by omega,
            show advPos line col ('\n' :: cs.take (k + 1)) = advPos (line + 1) 0 (cs.take (k + 1))
              from by rw [advPos, if_pos rfl]]
      · rw [if_neg hnl]
        rw [ih (some c) (i + 1) line (col + 1) nest { t with length := t.length + 1 } acc]
        cases hqc : quote_close_index '"' cs (some c) with
        | none =>
          simp only [Option.map, List.length_cons]
          rw [show t.length + (cs.length + 1) = t.length + 1 + cs.length from by omega]
        | some k =>
          dsimp only [Option.map]
          rw [show (c :: cs).drop (k + 1 + 1) = cs.drop (k + 1) from rfl,
            show (c :: cs).take (k + 1 + 1) = c :: cs.take (k + 1) from rfl,
            show i + (k + 1 + 1) = i + 1 + (k + 1) from by omega,
            show t.length + (k + 1 + 1) = t.length + 1 + (k + 1) from by omega,
            show advPos line col (c :: cs.take (k + 1)) = advPos line (col + 1) (cs.take (k + 1))
              from by rw [advPos, if_neg hnl]]

theorem sq_mode_run : ∀ (rest : List Char) (prev : Option Char) (i line col nest : Nat)
    (t : Token) (acc : List Token),
    tokenize_loop rest prev i line col .sqString (some t) nest acc =
      match quote_close_index single_quote_char rest prev with
      | none =>
        tokenize_finish .sqString (some ⟨t.type, t.index, t.length + rest.length, t.line, t.column⟩)
          nest acc
      | some k =>
        tokenize_loop (rest.drop (k + 1)) (some single_quote_char) (i + (k + 1))
          (advPos line col (rest.take (k + 1))).1 (advPos line col (rest.take (k + 1))).2
          .undetermined none nest
          (acc ++ [⟨t.type, t.index, t.length + (k + 1), t.line, t.column⟩]) := by
  intro rest
  induction rest with
  | nil => intro prev i line col nest t acc; rfl
  | cons c cs ih =>
    intro prev i line col nest t acc
    rw [tokenize_loop]
    simp only [tokenize_step]
    by_cases hc : c = single_quote_char ∧ prev ≠ some '\\'
    case pos =>
      obtain ⟨hc1, hc2⟩ := hc
      subst hc1
      have hqi : quote_close_index single_quote_char (single_quote_char :: cs) prev = some 0 := by
        simp [quote_close_index, hc2]
      rw [hqi, if_pos (show single_quote_char = single_quote_char ∧ prev ≠ some '\\' from ⟨rfl, hc2⟩)]
      rfl
    case neg =>
      rw [if_neg hc]
      have hq2 : quote_close_index single_quote_char (c :: cs) prev =
          (quote_close_index single_quote_char cs (some c)).map (· + 1) := by
        rw [quote_close_index, if_neg hc]
      rw [hq2]
      dsimp only
      by_cases hnl : c = '\n'
      · rw [if_pos hnl]
        rw [ih (some c) (i + 1) (line + 1) 0 nest { t with length := t.length + 1 } acc]
        cases hqc : quote_close_index single_quote_char cs (some c) with
        | none =>
          simp only [Option.map, List.length_cons]
          rw [show t.length + (cs.length + 1) = t.length + 1 + cs.length from by omega]
        | some k =>
          dsimp only [Option.map]
          subst hnl
          rw [show ('\n' :: cs).drop (k + 1 + 1) = cs.drop (k + 1) from rfl,
            show ('\n' :: cs).take (k + 1 + 1) = '\n' :: cs.take (k + 1) from rfl,
            show i + (k + 1 + 1) = i + 1 + (k + 1) from by omega,
            show t.length + (k + 1 + 1) = t.length + 1 + (k + 1) from by omega,
            show advPos line col ('\n' :: cs.take (k + 1)) = advPos (line + 1) 0 (cs.take (k + 1))
              from by rw [advPos, if_pos rfl]]
      · rw [if_neg hnl]
        rw [ih (some c) (i + 1) line (col + 1) nest { t with length := t.length + 1 } acc]
        cases hqc : quote_close_index single_quote_char cs (some c) with
        | none =>
          simp only [Option.map, List.length_cons]
          rw [show t.length + (cs.length + 1) = t.length + 1 + cs.length from by omega]
        | some k =>
          dsimp only [Option.map]
          rw [show (c :: cs).drop (k + 1 + 1) = cs.drop (k + 1) from rfl,
            show (c :: cs).take (k + 1 + 1) = c :: cs.take (k + 1) from rfl,
            show i + (k + 1 + 1) = i + 1 + (k + 1) from by omega,
            show t.length + (k + 1 + 1) = t.length + 1 + (k + 1) from by omega,
            show advPos line col (c :: cs.take (k + 1)) = advPos line (col + 1) (cs.take (k + 1))
              from by rw [advPos, if_neg hnl]]

theorem string_mode_characterization (q : Char) (mode : Mode)
    (hq : (mode = Mode.dqString ∧ q = '"') ∨ (mode = Mode.sqString ∧ q = single_quote_char)) :
    (∀ (rest : List Char) (prev : Option Char) (i line col nest : Nat) (t : Token)
      (acc : List Token),
      tokenize_loop rest prev i line col mode (some t) nest acc =
        match quote_close_index q rest prev with
        | none =>
          tokenize_finish mode (some ⟨t.type, t.index, t.length + rest.length, t.line, t.column⟩)
            nest acc
        | some k =>
          tokenize_loop (rest.drop (k + 1)) (some q) (i + (k + 1))
            (advPos line col (rest.take (k + 1))).1 (advPos line col (rest.take (k + 1))).2
            .undetermined none nest
            (acc ++ [⟨t.type, t.index, t.length + (k + 1), t.line, t.column⟩])) ∧
    tokenize ['"', '\\', '"', '"'] = .ok [⟨TOKEN_TYPE_DOUBLE_QUOTE_STRING, 0, 4, 0, 0⟩] ∧
    tokenize ['"', '\\', '\\', '"'] = .err ERROR_CODE_UNTERMINATED_STRING 0 ∧
    tokenize ['"', 'a', '\n', 'b', '"'] = .ok [⟨TOKEN_TYPE_DOUBLE_QUOTE_STRING, 0, 5, 0, 0⟩] := by
  refine ⟨?_, rfl, rfl, rfl⟩
  rcases hq with ⟨hm, hqv⟩ | ⟨hm, hqv⟩ <;> subst hm <;> subst hqv
  · exact dq_mode_run
  · exact sq_mode_run

/-- Witness for C8: the characterization applied to the double-quote mode at a
concrete machine state (a just-opened string, cursor at index 1, remaining
input a closing quote). -/
theorem string_mode_characterization_witness :
    tokenize_loop ['"'] (some 'x') 1 0 1 .dqString
        (some ⟨TOKEN_TYPE_DOUBLE_QUOTE_STRING, 0, 1, 0, 0⟩) 0 [] =
      match quote_close_index '"' ['"'] (some 'x') with
      | none =>
        tokenize_finish .dqString
          (some ⟨TOKEN_TYPE_DOUBLE_QUOTE_STRING, 0, 1 + (['"'] : List Char).length, 0, 0⟩) 0 []
      | some k =>
        tokenize_loop ((['"'] : List Char).drop (k + 1)) (some '"') (1 + (k + 1))
          (advPos 0 1 ((['"'] : List Char).take (k + 1))).1
          (advPos 0 1 ((['"'] : List Char).take (k + 1))).2
          .undetermined none 0
          ([] ++ [⟨TOKEN_TYPE_DOUBLE_QUOTE_STRING, 0, 1 + (k + 1), 0, 0⟩]) :=
  (string_mode_characterization '"' .dqString (Or.inl ⟨rfl, rfl⟩)).1
    ['"'] (some 'x') 1 0 1 0 ⟨TOKEN_TYPE_DOUBLE_QUOTE_STRING, 0, 1, 0, 0⟩ []

/-! ## C4: bracket family exclusivity -/

/-- C4.  Of the nine two-character texts made of one opening and one closing
list delimiter, exactly the three family-matched pairs parse successfully;
each of the six mismatched pairs fails with `DelimMismatch` (4). -/
theorem bracket_family_exclusivity :
    (parse "()".toList true true true).isOk = true ∧
    (parse "[]".toList true true true).isOk = true ∧
    (parse "{}".toList true true true).isOk = true ∧
    parse "(]".toList true true true = .err ERROR_CODE_DELIM_MISMATCH (some 0) none ∧
    parse "(\x7d".toList true true true = .err ERROR_CODE_DELIM_MISMATCH (some 0) none ∧
    parse "[)".toList true true true = .err ERROR_CODE_DELIM_MISMATCH (some 0) none ∧
    parse "[\x7d".toList true true true = .err ERROR_CODE_DELIM_MISMATCH (some 0) none ∧
    parse "\x7b)".toList true true true = .err ERROR_CODE_DELIM_MISMATCH (some 0) none ∧
    parse "\x7b]".toList true true true = .err ERROR_CODE_DELIM_MISMATCH (some 0) none :=
  ⟨rfl, rfl, rfl, rfl, rfl, rfl, rfl, rfl, rfl⟩

/-! ## Parser loop step equations

One equation per token class, used by the parser invariant proofs. -/

theorem parse_loop_ws_step {text : List Char} {ic iw id : Bool} {t : Token}
    {ts dstack : List Token} {top : ParseNodeList} {rest : List ParseNodeList}
    (htype : t.type = TOKEN_TYPE_WHITESPACE) :
    parse_loop text ic iw id (t :: ts) dstack (top :: rest) =
      parse_loop text ic iw id ts dstack
        ((if iw then parse_node_list_add_child top (.token t)
          else parse_node_list_add_child_length top (.token t)) :: rest) := by
  rw [parse_loop]
  simp [htype, TOKEN_TYPE_WHITESPACE]

theorem parse_loop_atom_step {text : List Char} {ic iw id : Bool} {t : Token}
    {ts dstack : List Token} {top : ParseNodeList} {rest : List ParseNodeList}
    (htype : t.type = TOKEN_TYPE_WORD ∨ t.type = TOKEN_TYPE_DOUBLE_QUOTE_STRING ∨
      t.type = TOKEN_TYPE_SINGLE_QUOTE_STRING) :
    parse_loop text ic iw id (t :: ts) dstack (top :: rest) =
      parse_loop text ic iw id ts dstack
        (parse_node_list_add_child top (.token t) :: rest) := by
  rw [parse_loop]
  rcases htype with h | h | h <;>
    simp [h, TOKEN_TYPE_WHITESPACE, TOKEN_TYPE_WORD, TOKEN_TYPE_DOUBLE_QUOTE_STRING,
      TOKEN_TYPE_SINGLE_QUOTE_STRING]

theorem parse_loop_open_step {text : List Char} {ic iw id : Bool} {t : Token}
    {ts dstack : List Token} {top : ParseNodeList} {rest : List ParseNodeList}
    (htype : t.type = TOKEN_TYPE_LIST_DELIMITER_OPEN) :
    parse_loop text ic iw id (t :: ts) dstack (top :: rest) =
      parse_loop text ic iw id ts (t :: dstack)
        ((if id then parse_node_list_add_child ⟨t.index, 0, t.line, t.column, []⟩ (.token t)
          else parse_node_list_add_child_length ⟨t.index, 0, t.line, t.column, []⟩ (.token t)) ::
          top :: rest) := by
  rw [parse_loop]
  simp [htype, TOKEN_TYPE_WHITESPACE, TOKEN_TYPE_WORD, TOKEN_TYPE_DOUBLE_QUOTE_STRING,
    TOKEN_TYPE_SINGLE_QUOTE_STRING, TOKEN_TYPE_LIST_DELIMITER_OPEN]

theorem parse_loop_comment_step {text : List Char} {ic iw id : Bool} {t : Token}
    {ts dstack : List Token} {top : ParseNodeList} {rest : List ParseNodeList}
    (htype : t.type = TOKEN_TYPE_SINGLE_LINE_COMMENT ∨ t.type = TOKEN_TYPE_MULTI_LINE_COMMENT) :
    parse_loop text ic iw id (t :: ts) dstack (top :: rest) =
      parse_loop text ic iw id ts dstack
        ((if ic then parse_node_list_add_child top (.token t)
          else parse_node_list_add_child_length top (.token t)) :: rest) := by
  rw [parse_loop]
  rcases htype with h | h <;>
    simp [h, TOKEN_TYPE_WHITESPACE, TOKEN_TYPE_WORD, TOKEN_TYPE_DOUBLE_QUOTE_STRING,
      TOKEN_TYPE_SINGLE_QUOTE_STRING, TOKEN_TYPE_LIST_DELIMITER_OPEN,
      TOKEN_TYPE_SINGLE_LINE_COMMENT, TOKEN_TYPE_MULTI_LINE_COMMENT]

theorem parse_loop_close_step {text : List Char} {ic iw id : Bool} {t : Token}
    {ts dstack : List Token} {top : ParseNodeList} {rest : List ParseNodeList}
    (htype : t.type = TOKEN_TYPE_LIST_DELIMITER_CLOSE) :
    parse_loop text ic iw id (t :: ts) dstack (top :: rest) =
      (match dstack with
      | [] =>
        .err ERROR_CODE_UNEXPECTED_CLOSING_DELIMITER (some 0) (some ⟨t.index, t.line, t.column⟩)
      | d :: ds =>
        if GET_CLOSE_VARIANT (lexeme text d) = some (lexeme text t) then
          match rest with
          | parent :: rest₂ =>
            parse_loop text ic iw id ts ds
              (parse_node_list_add_child parent
                (if id then parse_node_list_add_child top (.token t)
                  else parse_node_list_add_child_length top (.token t)).toNode :: rest₂)
          | [] => .exn "TypeError: adding child to undefined parse node list"
        else .err ERROR_CODE_DELIM_MISMATCH (some ds.length) none) := by
  rw [parse_loop]
  simp [htype, TOKEN_TYPE_WHITESPACE, TOKEN_TYPE_WORD, TOKEN_TYPE_DOUBLE_QUOTE_STRING,
    TOKEN_TYPE_SINGLE_QUOTE_STRING, TOKEN_TYPE_LIST_DELIMITER_OPEN,
    TOKEN_TYPE_SINGLE_LINE_COMMENT, TOKEN_TYPE_MULTI_LINE_COMMENT,
    TOKEN_TYPE_LIST_DELIMITER_CLOSE]

theorem parse_loop_eof {text : List Char} {ic iw id : Bool}
    {dstack : List Token} {nstack : List ParseNodeList} :
    parse_loop text ic iw id [] dstack nstack =
      match nstack with
      | [root] => .ok root.value
      | [] => .exn "Assertion failed: Expected parse tree stack to only contain one element"
      | _ :: _ :: _ =>
        match dstack with
        | d :: _ =>
          .err ERROR_CODE_UNCLOSED_DELIMITER (some dstack.length)
            (some ⟨d.index, d.line, d.column⟩)
        | [] => .exn "TypeError: reading property of undefined delimiter token" := rfl

/-! ## C10: `UnexpectedClosingDelimiter` from the parser has nesting level 0 -/

theorem parse_loop_unexpected_close_nesting :
    ∀ (text : List Char) (ic iw id : Bool) (ts dstack : List Token)
      (nstack : List ParseNodeList) (n : Nat) (cited : Option ErrPos),
    (∀ t ∈ ts, validType t) →
    parse_loop text ic iw id ts dstack nstack =
      .err ERROR_CODE_UNEXPECTED_CLOSING_DELIMITER (some n) cited →
    n = 0 := by
  intro text ic iw id ts
  induction ts with
  | nil =>
    intro dstack nstack n cited _ h
    rw [parse_loop_eof] at h
    match nstack, h with
    | [], h => cases h
    | [root], h => cases h
    | a :: b :: tl, h =>
      dsimp only at h
      match dstack, h with
      | [], h => cases h
      | d :: ds, h =>
        injection h with h1 _ _
        exact absurd h1 (by decide)
  | cons t ts ih =>
    intro dstack nstack n cited hvalid h
    have hvt := hvalid t (List.mem_cons_self t ts)
    have hvts : ∀ u ∈ ts, validType u := fun u hu => hvalid u (List.mem_cons_of_mem t hu)
    match nstack with
    | [] =>
      rw [parse_loop] at h
      cases h
    | top :: rest =>
      rcases hvt with h8 | h8 | h8 | h8 | h8 | h8 | h8 | h8
      · rw [parse_loop_ws_step h8] at h
        exact ih _ _ _ _ hvts h
      · rw [parse_loop_atom_step (Or.inl h8)] at h
        exact ih _ _ _ _ hvts h
      · rw [parse_loop_atom_step (Or.inr (Or.inl h8))] at h
        exact ih _ _ _ _ hvts h
      · rw [parse_loop_atom_step (Or.inr (Or.inr h8))] at h
        exact ih _ _ _ _ hvts h
      · rw [parse_loop_open_step h8] at h
        exact ih _ _ _ _ hvts h
      · rw [parse_loop_close_step h8] at h
        match dstack, h with
        | [], h =>
          dsimp only at h
          injection h with _ h2 _
          exact (Option.some.inj h2).symm
        | d :: ds, h =>
          dsimp only at h
          by_cases hm : GET_CLOSE_VARIANT (lexeme text d) = some (lexeme text t)
          · rw [if_pos hm] at h
            match rest, h with
            | [], h => cases h
            | parent :: rest₂, h => exact ih _ _ _ _ hvts h
          · rw [if_neg hm] at h
            injection h with h1 _ _
            exact absurd h1 (by decide)
      · rw [parse_loop_comment_step (Or.inl h8)] at h
        exact ih _ _ _ _ hvts h
      · rw [parse_loop_comment_step (Or.inr h8)] at h
        exact ih _ _ _ _ hvts h

/-- C10.  When `parse` itself reports `UnexpectedClosingDelimiter` — i.e. the
error object carries a `data.nesting_level` field, which propagated tokenizer
errors never do — the recorded nesting level is 0: the parser only raises
this code when the open-delimiter stack is empty. -/
theorem parse_unexpected_close_nesting_zero (text : List Char) (ic iw id : Bool)
    (n : Nat) (cited : Option ErrPos)
    (h : parse text ic iw id = .err ERROR_CODE_UNEXPECTED_CLOSING_DELIMITER (some n) cited) :
    n = 0 := by
  unfold parse at h
  cases htok : tokenize text with
  | ok tokens =>
    rw [htok] at h
    have hvalid := (tokenize_loop_master text none 0 0 0 .undetermined none 0 [] tokens
      (by constructor <;> simp [coversFrom]) htok).2
    exact parse_loop_unexpected_close_nesting text ic iw id tokens [] _ n cited hvalid h
  | err code missing =>
    rw [htok] at h
    cases h
  | exn m =>
    rw [htok] at h
    cases h

/-- Witness for C10 at the concrete input `")"`. -/
theorem parse_unexpected_close_nesting_zero_witness : (0 : Nat) = 0 :=
  parse_unexpected_close_nesting_zero ")".toList true true true 0
    (some ⟨0, 0, 0⟩) rfl

/-! ## C9: unclosed delimiters -/

theorem parse_loop_delimScan :
    ∀ (text : List Char) (ic iw id : Bool) (ts dstack : List Token)
      (nstack : List ParseNodeList) (d : Token) (ds : List Token),
    (∀ t ∈ ts, validType t) →
    nstack.length = dstack.length + 1 →
    delimScan text ts dstack = some (d :: ds) →
    parse_loop text ic iw id ts dstack nstack =
      .err ERROR_CODE_UNCLOSED_DELIMITER (some (ds.length + 1))
        (some ⟨d.index, d.line, d.column⟩) := by
  intro text ic iw id ts
  induction ts with
  | nil =>
    intro dstack nstack d ds _ hlen hscan
    simp only [delimScan] at hscan
    injection hscan with hscan
    subst hscan
    rw [parse_loop_eof]
    match nstack with
    | [] => simp at hlen
    | [a] => simp at hlen
    | a :: b :: tl =>
      dsimp only
      rw [List.length_cons]
  | cons t ts ih =>
    intro dstack nstack d ds hvalid hlen hscan
    have hvt := hvalid t (List.mem_cons_self t ts)
    have hvts : ∀ u ∈ ts, validType u := fun u hu => hvalid u (List.mem_cons_of_mem t hu)
    match nstack with
    | [] => simp at hlen
    | top :: rest =>
      have hlen₂ : rest.length = dstack.length := by
        simpa using hlen
      rcases hvt with h8 | h8 | h8 | h8 | h8 | h8 | h8 | h8
      · simp only [delimScan, h8, TOKEN_TYPE_WHITESPACE, TOKEN_TYPE_LIST_DELIMITER_OPEN,
          TOKEN_TYPE_LIST_DELIMITER_CLOSE] at hscan
        rw [parse_loop_ws_step h8]
        exact ih _ _ _ _ hvts (by simpa using hlen) hscan
      · simp only [delimScan, h8, TOKEN_TYPE_WORD, TOKEN_TYPE_LIST_DELIMITER_OPEN,
          TOKEN_TYPE_LIST_DELIMITER_CLOSE] at hscan
        rw [parse_loop_atom_step (Or.inl h8)]
        exact ih _ _ _ _ hvts (by simpa using hlen) hscan
      · simp only [delimScan, h8, TOKEN_TYPE_DOUBLE_QUOTE_STRING, TOKEN_TYPE_LIST_DELIMITER_OPEN,
          TOKEN_TYPE_LIST_DELIMITER_CLOSE] at hscan
        rw [parse_loop_atom_step (Or.inr (Or.inl h8))]
        exact ih _ _ _ _ hvts (by simpa using hlen) hscan
      · simp only [delimScan, h8, TOKEN_TYPE_SINGLE_QUOTE_STRING, TOKEN_TYPE_LIST_DELIMITER_OPEN,
          TOKEN_TYPE_LIST_DELIMITER_CLOSE] at hscan
        rw [parse_loop_atom_step (Or.inr (Or.inr h8))]
        exact ih _ _ _ _ hvts (by simpa using hlen) hscan
      · simp only [delimScan, h8, TOKEN_TYPE_LIST_DELIMITER_OPEN,
          TOKEN_TYPE_LIST_DELIMITER_CLOSE] at hscan
        rw [parse_loop_open_step h8]
        refine ih _ _ _ _ hvts ?_ hscan
        simp [hlen₂]
      · simp only [delimScan, h8, TOKEN_TYPE_LIST_DELIMITER_CLOSE] at hscan
        rw [parse_loop_close_step h8]
        match dstack, hlen₂, hscan with
        | [], hlen₂, hscan => cases hscan
        | d₂ :: ds₂, hlen₂, hscan =>
          dsimp only at hscan ⊢
          by_cases hm : GET_CLOSE_VARIANT (lexeme text d₂) = some (lexeme text t)
          · rw [if_pos hm] at hscan ⊢
            match rest, hlen₂ with
            | parent :: rest₂, hlen₂ =>
              exact ih _ _ _ _ hvts (by simpa using hlen₂) hscan
          · rw [if_neg hm] at hscan
            cases hscan
      · simp only [delimScan, h8, TOKEN_TYPE_SINGLE_LINE_COMMENT, TOKEN_TYPE_LIST_DELIMITER_OPEN,
          TOKEN_TYPE_LIST_DELIMITER_CLOSE] at hscan
        rw [parse_loop_comment_step (Or.inl h8)]
        exact ih _ _ _ _ hvts (by simpa using hlen) hscan
      · simp only [delimScan, h8, TOKEN_TYPE_MULTI_LINE_COMMENT, TOKEN_TYPE_LIST_DELIMITER_OPEN,
          TOKEN_TYPE_LIST_DELIMITER_CLOSE] at hscan
        rw [parse_loop_comment_step (Or.inr h8)]
        exact ih _ _ _ _ hvts (by simpa using hlen) hscan

/-- C9.  For every input whose tokenization succeeds but whose delimiter scan
leaves at least one delimiter open after all tokens (innermost first in
`d :: ds`), `parse` fails with `UnclosedDelimiter` (2); the position cited to
the message renderer is the innermost still-open delimiter's, and
`data.nesting_level` is the number of still-open delimiters. -/
theorem parse_unclosed_delimiter (text : List Char) (ic iw id : Bool)
    (tokens : List Token) (d : Token) (ds : List Token)
    (h1 : tokenize text = .ok tokens)
    (h2 : delimScan text tokens [] = some (d :: ds)) :
    parse text ic iw id =
      .err ERROR_CODE_UNCLOSED_DELIMITER (some (ds.length + 1))
        (some ⟨d.index, d.line, d.column⟩) := by
  unfold parse
  rw [h1]
  have hvalid := (tokenize_loop_master text none 0 0 0 .undetermined none 0 [] tokens
    (by constructor <;> simp [coversFrom]) h1).2
  exact parse_loop_delimScan text ic iw id tokens [] [⟨0, 0, 0, 0, []⟩] d ds hvalid
    (by simp) h2

/-- Witness for C9 at the concrete input `"(["`: two open delimiters remain,
the innermost at index 1 (line 0, column 1). -/
theorem parse_unclosed_delimiter_witness :
    parse "([".toList true true true =
      .err ERROR_CODE_UNCLOSED_DELIMITER
        (some (([⟨TOKEN_TYPE_LIST_DELIMITER_OPEN, 0, 1, 0, 0⟩] : List Token).length + 1))
        (some ⟨1, 0, 1⟩) :=
  parse_unclosed_delimiter "([".toList true true true
    [⟨TOKEN_TYPE_LIST_DELIMITER_OPEN, 0, 1, 0, 0⟩, ⟨TOKEN_TYPE_LIST_DELIMITER_OPEN, 1, 1, 0, 1⟩]
    ⟨TOKEN_TYPE_LIST_DELIMITER_OPEN, 1, 1, 0, 1⟩ [⟨TOKEN_TYPE_LIST_DELIMITER_OPEN, 0, 1, 0, 0⟩]
    rfl rfl

/-! ## C6: span accounting at the root -/

/-- Total accumulated length over a node-list stack. -/
def stackSum (ns : List ParseNodeList) : Nat := (ns.map (fun b => b.length)).sum

theorem stackSum_cons (b : ParseNodeList) (l : List ParseNodeList) :
    stackSum (b :: l) = b.length + stackSum l := by simp [stackSum]

theorem add_child_either_length (idf : Bool) (b : ParseNodeList) (c : ParseNode) :
    (if idf then parse_node_list_add_child b c
      else parse_node_list_add_child_length b c).length = b.length + c.length := by
  cases idf <;> rfl

theorem stackSum_single (b : ParseNodeList) : stackSum [b] = b.length := by
  simp [stackSum]

theorem add_child_len (b : ParseNodeList) (c : ParseNode) :
    (parse_node_list_add_child b c).length = b.length + c.length := rfl

theorem add_child_val (b : ParseNodeList) (c : ParseNode) :
    (parse_node_list_add_child b c).value = b.value ++ [c] := rfl

theorem token_node_length (t : Token) : (ParseNode.token t).length = t.length := rfl

theorem toNode_length (b : ParseNodeList) : b.toNode.length = b.length := rfl

theorem fresh_len (idf : Bool) (t : Token) :
    (if idf then parse_node_list_add_child ⟨t.index, 0, t.line, t.column, []⟩ (.token t)
      else parse_node_list_add_child_length ⟨t.index, 0, t.line, t.column, []⟩
        (.token t)).length = t.length := by
  cases idf <;>
    simp [parse_node_list_add_child, parse_node_list_add_child_length, ParseNode.length]

theorem close_top_len (idf : Bool) (b : ParseNodeList) (t : Token) :
    (if idf then parse_node_list_add_child b (.token t)
      else parse_node_list_add_child_length b (.token t)).length = b.length + t.length := by
  cases idf <;>
    simp [parse_node_list_add_child, parse_node_list_add_child_length, ParseNode.length]

theorem add_child_root_good {root : ParseNodeList} {c : ParseNode}
    (hroot : root.length = (root.value.map ParseNode.length).sum) :
    (parse_node_list_add_child root c).length =
      ((parse_node_list_add_child root c).value.map ParseNode.length).sum := by
  simp only [add_child_len, add_child_val, List.map_append, List.sum_append,
    List.map_cons, List.map_nil, List.sum_cons, List.sum_nil, hroot]
  omega

theorem parse_loop_root_sum :
    ∀ (text : List Char) (id : Bool) (N : Nat) (ts dstack : List Token)
      (inner : List ParseNodeList) (root : ParseNodeList) (trees : List ParseNode),
    (∀ t ∈ ts, validType t) →
    inner.length = dstack.length →
    root.length = (root.value.map ParseNode.length).sum →
    stackSum (inner ++ [root]) + (ts.map Token.length).sum = N →
    parse_loop text true true id ts dstack (inner ++ [root]) = .ok trees →
    (trees.map ParseNode.length).sum = N := by
  intro text id N ts
  induction ts with
  | nil =>
    intro dstack inner root trees _ hlen hroot hsum h
    match inner with
    | [] =>
      rw [List.nil_append, parse_loop_eof] at h
      injection h with h
      subst h
      rw [← hroot]
      simpa [stackSum] using hsum
    | [b] =>
      simp only [List.cons_append, List.nil_append] at h
      rw [parse_loop_eof] at h
      dsimp only at h
      match dstack, h with
      | [], h => cases h
      | _ :: _, h => cases h
    | b :: b2 :: bs =>
      simp only [List.cons_append] at h
      rw [parse_loop_eof] at h
      dsimp only at h
      match dstack, h with
      | [], h => cases h
      | _ :: _, h => cases h
  | cons t ts ih =>
    intro dstack inner root trees hvalid hlen hroot hsum h
    have hvt := hvalid t (List.mem_cons_self t ts)
    have hvts : ∀ u ∈ ts, validType u := fun u hu => hvalid u (List.mem_cons_of_mem t hu)
    have hsum₂ : stackSum (inner ++ [root]) + t.length + (ts.map Token.length).sum = N := by
      simp only [List.map_cons, List.sum_cons] at hsum
      omega
    match inner with
    | [] =>
      rw [List.nil_append] at h hsum₂
      have hrootsum : stackSum [root] = root.length := stackSum_single root
      rcases hvt with h8 | h8 | h8 | h8 | h8 | h8 | h8 | h8
      · rw [parse_loop_ws_step h8, if_pos rfl] at h
        refine ih dstack [] (parse_node_list_add_child root (.token t)) trees hvts hlen
          (add_child_root_good hroot) ?_ h
        rw [List.nil_append, stackSum_single, add_child_len, token_node_length]
        omega
      · rw [parse_loop_atom_step (Or.inl h8)] at h
        refine ih dstack [] (parse_node_list_add_child root (.token t)) trees hvts hlen
          (add_child_root_good hroot) ?_ h
        rw [List.nil_append, stackSum_single, add_child_len, token_node_length]
        omega
      · rw [parse_loop_atom_step (Or.inr (Or.inl h8))] at h
        refine ih dstack [] (parse_node_list_add_child root (.token t)) trees hvts hlen
          (add_child_root_good hroot) ?_ h
        rw [List.nil_append, stackSum_single, add_child_len, token_node_length]
        omega
      · rw [parse_loop_atom_step (Or.inr (Or.inr h8))] at h
        refine ih dstack [] (parse_node_list_add_child root (.token t)) trees hvts hlen
          (add_child_root_good hroot) ?_ h
        rw [List.nil_append, stackSum_single, add_child_len, token_node_length]
        omega
      · rw [parse_loop_open_step h8] at h
        refine ih (t :: dstack)
          [if id then parse_node_list_add_child ⟨t.index, 0, t.line, t.column, []⟩ (.token t)
            else parse_node_list_add_child_length ⟨t.index, 0, t.line, t.column, []⟩ (.token t)]
          root trees hvts (by simp [← hlen]) hroot ?_ h
        rw [List.cons_append, List.nil_append, stackSum_cons, stackSum_single, fresh_len]
        omega
      · rw [parse_loop_close_step h8] at h
        match dstack, hlen, h with
        | [], _, h => cases h
      · rw [parse_loop_comment_step (Or.inl h8), if_pos rfl] at h
        refine ih dstack [] (parse_node_list_add_child root (.token t)) trees hvts hlen
          (add_child_root_good hroot) ?_ h
        rw [List.nil_append, stackSum_single, add_child_len, token_node_length]
        omega
      · rw [parse_loop_comment_step (Or.inr h8), if_pos rfl] at h
        refine ih dstack [] (parse_node_list_add_child root (.token t)) trees hvts hlen
          (add_child_root_good hroot) ?_ h
        rw [List.nil_append, stackSum_single, add_child_len, token_node_length]
        omega
    | b :: bs =>
      rw [List.cons_append] at h hsum₂
      rcases hvt with h8 | h8 | h8 | h8 | h8 | h8 | h8 | h8
      · rw [parse_loop_ws_step h8, if_pos rfl] at h
        refine ih dstack (parse_node_list_add_child b (.token t) :: bs) root trees hvts
          (by simpa using hlen) hroot ?_ h
        rw [List.cons_append, stackSum_cons, add_child_len, token_node_length]
        rw [stackSum_cons] at hsum₂
        omega
      · rw [parse_loop_atom_step (Or.inl h8)] at h
        refine ih dstack (parse_node_list_add_child b (.token t) :: bs) root trees hvts
          (by simpa using hlen) hroot ?_ h
        rw [List.cons_append, stackSum_cons, add_child_len, token_node_length]
        rw [stackSum_cons] at hsum₂
        omega
      · rw [parse_loop_atom_step (Or.inr (Or.inl h8))] at h
        refine ih dstack (parse_node_list_add_child b (.token t) :: bs) root trees hvts
          (by simpa using hlen) hroot ?_ h
        rw [List.cons_append, stackSum_cons, add_child_len, token_node_length]
        rw [stackSum_cons] at hsum₂
        omega
      · rw [parse_loop_atom_step (Or.inr (Or.inr h8))] at h
        refine ih dstack (parse_node_list_add_child b (.token t) :: bs) root trees hvts
          (by simpa using hlen) hroot ?_ h
        rw [List.cons_append, stackSum_cons, add_child_len, token_node_length]
        rw [stackSum_cons] at hsum₂
        omega
      · rw [parse_loop_open_step h8] at h
        refine ih (t :: dstack)
          ((if id then parse_node_list_add_child ⟨t.index, 0, t.line, t.column, []⟩ (.token t)
            else parse_node_list_add_child_length ⟨t.index, 0, t.line, t.column, []⟩ (.token t)) ::
            b :: bs)
          root trees hvts (by simp only [List.length_cons] at hlen ⊢; omega) hroot ?_ h
        rw [List.cons_append, List.cons_append, stackSum_cons, stackSum_cons, fresh_len]
        rw [stackSum_cons] at hsum₂
        omega
      · rw [parse_loop_close_step h8] at h
        match dstack, hlen, hsum₂, h with
        | d₂ :: ds₂, hlen, hsum₂, h =>
          dsimp only at h
          by_cases hm : GET_CLOSE_VARIANT (lexeme text d₂) = some (lexeme text t)
          · rw [if_pos hm] at h
            match bs, hlen, hsum₂, h with
            | [], hlen, hsum₂, h =>
              rw [List.nil_append] at h
              dsimp only at h
              have hT := close_top_len id b t
              refine ih ds₂ []
                (parse_node_list_add_child root
                  (if id then parse_node_list_add_child b (.token t)
                    else parse_node_list_add_child_length b (.token t)).toNode)
                trees hvts (by simp only [List.length_cons, List.length_nil] at hlen ⊢; omega)
                (add_child_root_good hroot) ?_ h
              rw [List.nil_append, stackSum_single, add_child_len, toNode_length, hT]
              rw [List.nil_append, stackSum_cons, stackSum_single] at hsum₂
              omega
            | b2 :: bs2, hlen, hsum₂, h =>
              rw [List.cons_append] at h
              dsimp only at h
              have hT := close_top_len id b t
              refine ih ds₂
                (parse_node_list_add_child b2
                  (if id then parse_node_list_add_child b (.token t)
                    else parse_node_list_add_child_length b (.token t)).toNode :: bs2)
                root trees hvts (by simp only [List.length_cons] at hlen ⊢; omega) hroot ?_ h
              rw [List.cons_append, stackSum_cons, add_child_len, toNode_length, hT]
              rw [List.cons_append, stackSum_cons, stackSum_cons] at hsum₂
              omega
          · rw [if_neg hm] at h
            cases h
      · rw [parse_loop_comment_step (Or.inl h8), if_pos rfl] at h
        refine ih dstack (parse_node_list_add_child b (.token t) :: bs) root trees hvts
          (by simpa using hlen) hroot ?_ h
        rw [List.cons_append, stackSum_cons, add_child_len, token_node_length]
        rw [stackSum_cons] at hsum₂
        omega
      · rw [parse_loop_comment_step (Or.inr h8), if_pos rfl] at h
        refine ih dstack (parse_node_list_add_child b (.token t) :: bs) root trees hvts
          (by simpa using hlen) hroot ?_ h
        rw [List.cons_append, stackSum_cons, add_child_len, token_node_length]
        rw [stackSum_cons] at hsum₂
        omega

/-- C6 (amended).  For every text parsed successfully with whitespace and
comments retained (`include_comments = include_whitespace = true`,
`include_list_delimiters` arbitrary), the sum of the `length` fields of the
returned parse trees equals the length of the input text. -/
theorem parse_span_sum (text : List Char) (id : Bool) (trees : List ParseNode)
    (h : parse text true true id = .ok trees) :
    (trees.map ParseNode.length).sum = text.length := by
  unfold parse at h
  cases htok : tokenize text with
  | ok tokens =>
    rw [htok] at h
    have hmaster := tokenize_loop_master text none 0 0 0 .undetermined none 0 [] tokens
      (by constructor <;> simp [coversFrom]) htok
    have hsum : (tokens.map Token.length).sum = text.length := by
      have h0 := coversFrom_sum (s := 0) (by simpa using hmaster.1)
      simpa using h0
    exact parse_loop_root_sum text id text.length tokens [] [] ⟨0, 0, 0, 0, []⟩ trees
      hmaster.2 rfl rfl (by simpa [stackSum] using hsum) h
  | err code missing =>
    rw [htok] at h
    cases h
  | exn m =>
    rw [htok] at h
    cases h

/-- Witness for the amended C6 at the concrete input `"(a)"` with
`include_list_delimiters = false`. -/
theorem parse_span_sum_witness :
    (([ParseNode.list 0 3 0 0 [.token ⟨TOKEN_TYPE_WORD, 1, 1, 0, 1⟩]] : List ParseNode).map
      ParseNode.length).sum = ("(a)".toList).length :=
  parse_span_sum "(a)".toList false
    [ParseNode.list 0 3 0 0 [.token ⟨TOKEN_TYPE_WORD, 1, 1, 0, 1⟩]] rfl

/-- Counterexample to C6 as stated: with `include_whitespace = false` the
single whitespace token of `" "` is dropped from the returned parse trees
(its length is recorded only in the discarded synthetic root), so the spans
sum to 0 while the input has length 1. -/
theorem parse_span_sum_counterexample :
    parse [' '] true false true = .ok [] ∧
    ((([] : List ParseNode)).map ParseNode.length).sum ≠ ([' '] : List Char).length :=
  ⟨rfl, by decide⟩

/-! ## C5: length accounting and configuration invariance -/

theorem goodBuilder_add_child {b : ParseNodeList} {c : ParseNode}
    (hb : goodBuilder b) (hc : GoodNode c) :
    goodBuilder (parse_node_list_add_child b c) := by
  refine ⟨?_, ?_⟩
  · rw [add_child_len, add_child_val, List.map_append, List.sum_append]
    simp only [List.map_cons, List.map_nil, List.sum_cons, List.sum_nil, hb.1]
    omega
  · intro x hx
    rw [add_child_val] at hx
    rcases mem_append_singleton hx with hx | rfl
    · exact hb.2 x hx
    · exact hc

theorem goodBuilder_fresh (t : Token) :
    goodBuilder (parse_node_list_add_child ⟨t.index, 0, t.line, t.column, []⟩ (.token t)) :=
  goodBuilder_add_child ⟨by simp, by simp⟩ (GoodNode.token t)

theorem goodBuilder_toNode {b : ParseNodeList} (hb : goodBuilder b) : GoodNode b.toNode :=
  GoodNode.list b.index b.length b.line b.column b.value hb.1 hb.2

theorem parse_loop_all_true_good :
    ∀ (text : List Char) (ts dstack : List Token) (nstack : List ParseNodeList)
      (trees : List ParseNode),
    (∀ t ∈ ts, validType t) →
    (∀ b ∈ nstack, goodBuilder b) →
    parse_loop text true true true ts dstack nstack = .ok trees →
    ∀ tr ∈ trees, GoodNode tr := by
  intro text ts
  induction ts with
  | nil =>
    intro dstack nstack trees _ hgood h
    match nstack with
    | [] =>
      rw [parse_loop_eof] at h
      cases h
    | [root] =>
      rw [parse_loop_eof] at h
      injection h with h
      subst h
      exact (hgood root (List.mem_singleton.mpr rfl)).2
    | a :: b :: tl =>
      rw [parse_loop_eof] at h
      dsimp only at h
      match dstack, h with
      | [], h => cases h
      | _ :: _, h => cases h
  | cons t ts ih =>
    intro dstack nstack trees hvalid hgood h
    have hvt := hvalid t (List.mem_cons_self t ts)
    have hvts : ∀ u ∈ ts, validType u := fun u hu => hvalid u (List.mem_cons_of_mem t hu)
    match nstack with
    | [] =>
      rw [parse_loop] at h
      cases h
    | top :: rest =>
      have htop : goodBuilder top := hgood top (List.mem_cons_self top rest)
      have hrest : ∀ b ∈ rest, goodBuilder b := fun b hb =>
        hgood b (List.mem_cons_of_mem top hb)
      have hcons : ∀ (b : ParseNodeList), goodBuilder b →
          ∀ x ∈ b :: rest, goodBuilder x := by
        intro b hb x hx
        rcases List.mem_cons.mp hx with rfl | hx
        · exact hb
        · exact hrest x hx
      rcases hvt with h8 | h8 | h8 | h8 | h8 | h8 | h8 | h8
      · rw [parse_loop_ws_step h8, if_pos rfl] at h
        exact ih dstack _ trees hvts
          (hcons _ (goodBuilder_add_child htop (GoodNode.token t))) h
      · rw [parse_loop_atom_step (Or.inl h8)] at h
        exact ih dstack _ trees hvts
          (hcons _ (goodBuilder_add_child htop (GoodNode.token t))) h
      · rw [parse_loop_atom_step (Or.inr (Or.inl h8))] at h
        exact ih dstack _ trees hvts
          (hcons _ (goodBuilder_add_child htop (GoodNode.token t))) h
      · rw [parse_loop_atom_step (Or.inr (Or.inr h8))] at h
        exact ih dstack _ trees hvts
          (hcons _ (goodBuilder_add_child htop (GoodNode.token t))) h
      · rw [parse_loop_open_step h8, if_pos rfl] at h
        refine ih (t :: dstack) _ trees hvts ?_ h
        intro x hx
        rcases List.mem_cons.mp hx with rfl | hx
        · exact goodBuilder_fresh t
        · exact hgood x hx
      · rw [parse_loop_close_step h8] at h
        match dstack, h with
        | [], h => cases h
        | d :: ds, h =>
          dsimp only at h
          by_cases hm : GET_CLOSE_VARIANT (lexeme text d) = some (lexeme text t)
          · rw [if_pos hm, if_pos rfl] at h
            match rest, hrest, h with
            | [], _, h => cases h
            | parent :: rest₂, hrest, h =>
              refine ih ds _ trees hvts ?_ h
              intro x hx
              rcases List.mem_cons.mp hx with rfl | hx
              · exact goodBuilder_add_child (hrest parent (List.mem_cons_self parent rest₂))
                  (goodBuilder_toNode (goodBuilder_add_child htop (GoodNode.token t)))
              · exact hrest x (List.mem_cons_of_mem parent hx)
          · rw [if_neg hm] at h
            cases h
      · rw [parse_loop_comment_step (Or.inl h8), if_pos rfl] at h
        exact ih dstack _ trees hvts
          (hcons _ (goodBuilder_add_child htop (GoodNode.token t))) h
      · rw [parse_loop_comment_step (Or.inr h8), if_pos rfl] at h
        exact ih dstack _ trees hvts
          (hcons _ (goodBuilder_add_child htop (GoodNode.token t))) h

theorem filterChildren_append (ic iw id : Bool) (xs ys : List ParseNode) :
    filterChildren ic iw id (xs ++ ys) =
      filterChildren ic iw id xs ++ filterChildren ic iw id ys := by
  induction xs with
  | nil => rfl
  | cons c cs ihx =>
    rw [List.cons_append]
    dsimp only [filterChildren]
    cases filterTree ic iw id c <;> simp [ihx]

theorem filterChildren_snoc (ic iw id : Bool) (v : List ParseNode) (c : ParseNode) :
    filterChildren ic iw id (v ++ [c]) =
      filterChildren ic iw id v ++
        (match filterTree ic iw id c with | some c₂ => [c₂] | none => []) := by
  rw [filterChildren_append]
  congr 1

theorem filterTree_token_ws {t : Token} (h : t.type = TOKEN_TYPE_WHITESPACE)
    (ic iw id : Bool) :
    filterTree ic iw id (.token t) = if iw then some (.token t) else none := by
  simp [filterTree, h, TOKEN_TYPE_WHITESPACE]

theorem filterTree_token_comment {t : Token}
    (h : t.type = TOKEN_TYPE_SINGLE_LINE_COMMENT ∨ t.type = TOKEN_TYPE_MULTI_LINE_COMMENT)
    (ic iw id : Bool) :
    filterTree ic iw id (.token t) = if ic then some (.token t) else none := by
  rcases h with h | h <;>
    simp [filterTree, h, TOKEN_TYPE_WHITESPACE, TOKEN_TYPE_SINGLE_LINE_COMMENT,
      TOKEN_TYPE_MULTI_LINE_COMMENT]

theorem filterTree_token_delim {t : Token}
    (h : t.type = TOKEN_TYPE_LIST_DELIMITER_OPEN ∨ t.type = TOKEN_TYPE_LIST_DELIMITER_CLOSE)
    (ic iw id : Bool) :
    filterTree ic iw id (.token t) = if id then some (.token t) else none := by
  rcases h with h | h <;>
    simp [filterTree, h, TOKEN_TYPE_WHITESPACE, TOKEN_TYPE_SINGLE_LINE_COMMENT,
      TOKEN_TYPE_MULTI_LINE_COMMENT, TOKEN_TYPE_LIST_DELIMITER_OPEN,
      TOKEN_TYPE_LIST_DELIMITER_CLOSE]

theorem filterTree_token_atom {t : Token}
    (h : t.type = TOKEN_TYPE_WORD ∨ t.type = TOKEN_TYPE_DOUBLE_QUOTE_STRING ∨
      t.type = TOKEN_TYPE_SINGLE_QUOTE_STRING)
    (ic iw id : Bool) :
    filterTree ic iw id (.token t) = some (.token t) := by
  rcases h with h | h | h <;>
    simp [filterTree, h, TOKEN_TYPE_WHITESPACE, TOKEN_TYPE_SINGLE_LINE_COMMENT,
      TOKEN_TYPE_MULTI_LINE_COMMENT, TOKEN_TYPE_LIST_DELIMITER_OPEN,
      TOKEN_TYPE_LIST_DELIMITER_CLOSE, TOKEN_TYPE_WORD, TOKEN_TYPE_DOUBLE_QUOTE_STRING,
      TOKEN_TYPE_SINGLE_QUOTE_STRING]

theorem filterTree_toNode (ic iw id : Bool) (b : ParseNodeList) :
    filterTree ic iw id b.toNode =
      some (.list b.index b.length b.line b.column (filterChildren ic iw id b.value)) := rfl

theorem parse_loop_cons_nilstack {text : List Char} {ic iw id : Bool} {t : Token}
    {ts dstack : List Token} :
    parse_loop text ic iw id (t :: ts) dstack [] =
      .exn "TypeError: adding child to undefined parse node list" := rfl

/-- Appending a token to related stack tops preserves the stack relation:
the run with flags keeps the token as a child exactly when its category flag
(`keep`) is enabled, while the all-true run always keeps it. -/
theorem StackRel_top_token {ic iw id : Bool} {bf bt : ParseNodeList}
    {nsf nst : List ParseNodeList} (keep : Bool) (t : Token)
    (hrel : StackRel ic iw id (bf :: nsf) (bt :: nst))
    (hfilter : filterTree ic iw id (.token t) = if keep then some (.token t) else none) :
    StackRel ic iw id
      ((if keep then parse_node_list_add_child bf (.token t)
        else parse_node_list_add_child_length bf (.token t)) :: nsf)
      (parse_node_list_add_child bt (.token t) :: nst) := by
  cases hrel with
  | cons hindex hlength hline hcolumn hvalue htail =>
    refine StackRel.cons ?_ ?_ ?_ ?_ ?_ htail
    · cases keep <;>
        simp [parse_node_list_add_child, parse_node_list_add_child_length, hindex]
    · cases keep <;>
        simp [parse_node_list_add_child, parse_node_list_add_child_length, hlength,
          ParseNode.length]
    · cases keep <;>
        simp [parse_node_list_add_child, parse_node_list_add_child_length, hline]
    · cases keep <;>
        simp [parse_node_list_add_child, parse_node_list_add_child_length, hcolumn]
    · rw [add_child_val, filterChildren_snoc, hfilter]
      cases keep
      · simp [parse_node_list_add_child_length, hvalue]
      · simp [parse_node_list_add_child, hvalue]

theorem parse_loop_filter_sim :
    ∀ (text : List Char) (ic iw id : Bool) (ts dstack : List Token)
      (nsf nst : List ParseNodeList),
    (∀ t ∈ ts, validType t) →
    StackRel ic iw id nsf nst →
    parse_loop text ic iw id ts dstack nsf =
      filter_result ic iw id (parse_loop text true true true ts dstack nst) := by
  intro text ic iw id ts
  induction ts with
  | nil =>
    intro dstack nsf nst _ hrel
    cases hrel with
    | nil => rfl
    | cons hindex hlength hline hcolumn hvalue htail =>
      cases htail with
      | nil =>
        rw [parse_loop_eof, parse_loop_eof]
        dsimp only [filter_result]
        rw [hvalue]
      | cons hi2 hl2 hn2 hc2 hv2 htail2 =>
        rw [parse_loop_eof, parse_loop_eof]
        dsimp only
        match dstack with
        | [] => rfl
        | d :: ds => rfl
  | cons t ts ih =>
    intro dstack nsf nst hvalid hrel
    have hvt := hvalid t (List.mem_cons_self t ts)
    have hvts : ∀ u ∈ ts, validType u := fun u hu => hvalid u (List.mem_cons_of_mem t hu)
    cases hrel with
    | nil => rw [parse_loop_cons_nilstack, parse_loop_cons_nilstack]; rfl
    | @cons bf bt nsf₂ nst₂ hindex hlength hline hcolumn hvalue htail =>
      rcases hvt with h8 | h8 | h8 | h8 | h8 | h8 | h8 | h8
      · rw [parse_loop_ws_step h8, parse_loop_ws_step h8, if_pos rfl]
        exact ih dstack _ _ hvts
          (StackRel_top_token iw t (StackRel.cons hindex hlength hline hcolumn hvalue htail)
            (filterTree_token_ws h8 ic iw id))
      · rw [parse_loop_atom_step (Or.inl h8), parse_loop_atom_step (Or.inl h8)]
        refine ih dstack _ _ hvts ?_
        have := StackRel_top_token true t
          (StackRel.cons hindex hlength hline hcolumn hvalue htail)
          (by rw [filterTree_token_atom (Or.inl h8)]; rfl)
        simpa using this
      · rw [parse_loop_atom_step (Or.inr (Or.inl h8)),
          parse_loop_atom_step (Or.inr (Or.inl h8))]
        refine ih dstack _ _ hvts ?_
        have := StackRel_top_token true t
          (StackRel.cons hindex hlength hline hcolumn hvalue htail)
          (by rw [filterTree_token_atom (Or.inr (Or.inl h8))]; rfl)
        simpa using this
      · rw [parse_loop_atom_step (Or.inr (Or.inr h8)),
          parse_loop_atom_step (Or.inr (Or.inr h8))]
        refine ih dstack _ _ hvts ?_
        have := StackRel_top_token true t
          (StackRel.cons hindex hlength hline hcolumn hvalue htail)
          (by rw [filterTree_token_atom (Or.inr (Or.inr h8))]; rfl)
        simpa using this
      · rw [parse_loop_open_step h8, parse_loop_open_step h8, if_pos rfl]
        refine ih (t :: dstack) _ _ hvts ?_
        have hbase : StackRel ic iw id
            ((⟨t.index, 0, t.line, t.column, []⟩ : ParseNodeList) :: bf :: nsf₂)
            ((⟨t.index, 0, t.line, t.column, []⟩ : ParseNodeList) :: bt :: nst₂) :=
          StackRel.cons rfl rfl rfl rfl (by simp [filterChildren])
            (StackRel.cons hindex hlength hline hcolumn hvalue htail)
        exact StackRel_top_token id t hbase (filterTree_token_delim (Or.inl h8) ic iw id)
      · rw [parse_loop_close_step h8, parse_loop_close_step h8]
        match dstack with
        | [] => rfl
        | d :: ds =>
          dsimp only
          by_cases hm : GET_CLOSE_VARIANT (lexeme text d) = some (lexeme text t)
          · rw [if_pos hm, if_pos hm, if_pos rfl]
            have htoprel := StackRel_top_token id t
              (StackRel.cons hindex hlength hline hcolumn hvalue StackRel.nil)
              (filterTree_token_delim (Or.inr h8) ic iw id)
            cases htail with
            | nil => rfl
            | @cons pf pt nsf₃ nst₃ hip hlp hnp hcp hvp htail₃ =>
              dsimp only
              refine ih ds _ _ hvts ?_
              cases htoprel with
              | cons hi2 hl2 hn2 hc2 hv2 =>
                refine StackRel.cons ?_ ?_ ?_ ?_ ?_ htail₃
                · simp [parse_node_list_add_child, hip]
                · simp only [add_child_len, toNode_length, hlp, hl2]
                · simp [parse_node_list_add_child, hnp]
                · simp [parse_node_list_add_child, hcp]
                · rw [add_child_val, add_child_val, filterChildren_snoc, filterTree_toNode,
                    hvp]
                  congr 1
                  simp only [ParseNodeList.toNode, hi2, hl2, hn2, hc2, hv2]
          · rw [if_neg hm, if_neg hm]
            rfl
      · rw [parse_loop_comment_step (Or.inl h8), parse_loop_comment_step (Or.inl h8),
          if_pos rfl]
        exact ih dstack _ _ hvts
          (StackRel_top_token ic t (StackRel.cons hindex hlength hline hcolumn hvalue htail)
            (filterTree_token_comment (Or.inl h8) ic iw id))
      · rw [parse_loop_comment_step (Or.inr h8), parse_loop_comment_step (Or.inr h8),
          if_pos rfl]
        exact ih dstack _ _ hvts
          (StackRel_top_token ic t (StackRel.cons hindex hlength hline hcolumn hvalue htail)
            (filterTree_token_comment (Or.inr h8) ic iw id))

theorem goodNode_length_tokenSpan : ∀ (n : ParseNode), GoodNode n →
    n.length = n.tokenSpan := by
  intro n h
  induction h with
  | token t => simp [ParseNode.tokenSpan, ParseNode.length]
  | list index len line column cs hlen hcs ihcs =>
    simp only [ParseNode.length, ParseNode.tokenSpan]
    rw [hlen, List.attach_map_val cs (fun c => c.tokenSpan)]
    exact congrArg List.sum (List.map_congr_left ihcs)

/-- C5.  For every text parsed successfully with all include-flags enabled:
(1) parsing the same text under any flag combination succeeds and returns
exactly the flag-filtered trees (`filterChildren`), so the run with flags
differs from the all-flags run only by dropped token children;
(2) in the all-flags trees, every list node's recorded `length` is the sum of
its children's lengths, and consequently equals the total length of all
tokens it logically spans (`tokenSpan`), delimiter tokens included;
(3) filtering never changes a node's recorded `length`.  Together: a node's
`length` field is the same whatever the flag settings, and always accounts
for the whitespace, comment and delimiter tokens excluded from `children`. -/
theorem parse_length_config_invariant (text : List Char) (ic iw id : Bool)
    (trees : List ParseNode) (h : parse text true true true = .ok trees) :
    parse text ic iw id = .ok (filterChildren ic iw id trees) ∧
    (∀ tr ∈ trees, GoodNode tr) ∧
    (∀ n : ParseNode, GoodNode n → n.length = n.tokenSpan) ∧
    (∀ (n m : ParseNode), filterTree ic iw id n = some m → m.length = n.length) := by
  unfold parse at h ⊢
  cases htok : tokenize text with
  | ok tokens =>
    rw [htok] at h
    dsimp only at h ⊢
    have hvalid := (tokenize_loop_master text none 0 0 0 .undetermined none 0 [] tokens
      (by constructor <;> simp [coversFrom]) htok).2
    refine ⟨?_, ?_, goodNode_length_tokenSpan, ?_⟩
    · rw [parse_loop_filter_sim text ic iw id tokens [] _ _ hvalid
        (StackRel.cons rfl rfl rfl rfl (by simp [filterChildren]) StackRel.nil), h]
      rfl
    · exact parse_loop_all_true_good text tokens [] _ trees hvalid
        (by intro b hb; rw [List.mem_singleton.mp hb]; exact ⟨by simp, by simp⟩) h
    · intro n m hf
      cases n with
      | token t =>
        unfold filterTree at hf
        split_ifs at hf
        all_goals cases hf
        all_goals rfl
      | list index len line column cs =>
        injection hf with hf
        subst hf
        rfl
  | err code missing =>
    rw [htok] at h
    dsimp only at h
    cases h
  | exn m =>
    rw [htok] at h
    dsimp only at h
    cases h

/-- Witness for C5 at the concrete input `"(a )"` with all three flags off:
the filtered run keeps the word token only, with the list span unchanged. -/
theorem parse_length_config_invariant_witness :
    parse "(a )".toList false false false =
      .ok (filterChildren false false false
        [ParseNode.list 0 4 0 0 [.token ⟨TOKEN_TYPE_LIST_DELIMITER_OPEN, 0, 1, 0, 0⟩,
          .token ⟨TOKEN_TYPE_WORD, 1, 1, 0, 1⟩, .token ⟨TOKEN_TYPE_WHITESPACE, 2, 1, 0, 2⟩,
          .token ⟨TOKEN_TYPE_LIST_DELIMITER_CLOSE, 3, 1, 0, 3⟩]]) :=
  (parse_length_config_invariant "(a )".toList false false false
    [ParseNode.list 0 4 0 0 [.token ⟨TOKEN_TYPE_LIST_DELIMITER_OPEN, 0, 1, 0, 0⟩,
      .token ⟨TOKEN_TYPE_WORD, 1, 1, 0, 1⟩, .token ⟨TOKEN_TYPE_WHITESPACE, 2, 1, 0, 2⟩,
      .token ⟨TOKEN_TYPE_LIST_DELIMITER_CLOSE, 3, 1, 0, 3⟩]] rfl).1

end SExprLike
